import Mathlib

/-!
# Cozy Bid — verification of the sealed-bid auction protocol engine

Shallow embedding of the protocol engine of `src/server.js` together with the
repository operations of `src/db.js`.  JS strings are modelled as Lean
`String`s, SQL `TEXT` nullable columns as `Option String`, SQL `REAL` nullable
columns as `Option ℚ` (the numeric values that actually flow through the
engine are two-decimal amounts below 100000, on which IEEE doubles behave
exactly like the rationals), and node's `crypto` SHA-256 is implemented
bit-exactly over `Nat`.
-/

namespace CozyBid

/-! ## SHA-256 (node `crypto.createHash('sha256').update(payload).digest('hex')`)

Implemented over `Nat` with explicit reduction mod 2^32. -/

/-- Truncate to a 32-bit word. -/
def w32 (n : Nat) : Nat := n % 4294967296

/-- Right rotation of a 32-bit word by `n` places (arithmetic formulation). -/
def rotr32 (n x : Nat) : Nat := w32 (x / 2 ^ n + x % 2 ^ n * 2 ^ (32 - n))

/-- Bitwise complement of a 32-bit word. -/
def bnot32 (x : Nat) : Nat := 4294967295 - w32 x

/-- SHA-256 `Ch` function. -/
def shaCh (e f g : Nat) : Nat := (e &&& f) ^^^ (bnot32 e &&& g)

/-- SHA-256 `Maj` function. -/
def shaMaj (a b c : Nat) : Nat := (a &&& b) ^^^ (a &&& c) ^^^ (b &&& c)

/-- SHA-256 big Σ₀. -/
def bigSigma0 (x : Nat) : Nat := rotr32 2 x ^^^ rotr32 13 x ^^^ rotr32 22 x

/-- SHA-256 big Σ₁. -/
def bigSigma1 (x : Nat) : Nat := rotr32 6 x ^^^ rotr32 11 x ^^^ rotr32 25 x

/-- SHA-256 small σ₀. -/
def smallSigma0 (x : Nat) : Nat := rotr32 7 x ^^^ rotr32 18 x ^^^ x / 2 ^ 3

/-- SHA-256 small σ₁. -/
def smallSigma1 (x : Nat) : Nat := rotr32 17 x ^^^ rotr32 19 x ^^^ x / 2 ^ 10

/-- The 64 SHA-256 round constants (decimal rendering of the FIPS table). -/
def shaK : List Nat :=
  [1116352408, 1899447441, 3049323471, 3921009573, 961987163,
   1508970993, 2453635748, 2870763221, 3624381080, 310598401,
   607225278, 1426881987, 1925078388, 2162078206, 2614888103,
   3248222580, 3835390401, 4022224774, 264347078, 604807628,
   770255983, 1249150122, 1555081692, 1996064986, 2554220882,
   2821834349, 2952996808, 3210313671, 3336571891, 3584528711,
   113926993, 338241895, 666307205, 773529912, 1294757372,
   1396182291, 1695183700, 1986661051, 2177026350, 2456956037,
   2730485921, 2820302411, 3259730800, 3345764771, 3516065817,
   3600352804, 4094571909, 275423344, 430227734, 506948616,
   659060556, 883997877, 958139571, 1322822218, 1537002063,
   1747873779, 1955562222, 2024104815, 2227730452, 2361852424,
   2428436474, 2756734187, 3204031479, 3329325298]

/-- Working state of the SHA-256 compression function: eight 32-bit words. -/
structure Sha8 where
  a : Nat
  b : Nat
  c : Nat
  d : Nat
  e : Nat
  f : Nat
  g : Nat
  h : Nat
deriving Repr, DecidableEq

/-- SHA-256 initial hash value (decimal rendering of the FIPS table). -/
def shaInit : Sha8 :=
  ⟨1779033703, 3144134277, 1013904242, 2773480762,
   1359893119, 2600822924, 528734635, 1541459225⟩

/-- One SHA-256 compression round. -/
def shaRound (s : Sha8) (kw : Nat × Nat) : Sha8 :=
  let t1 := w32 (s.h + bigSigma1 s.e + shaCh s.e s.f s.g + kw.1 + kw.2)
  let t2 := w32 (bigSigma0 s.a + shaMaj s.a s.b s.c)
  ⟨w32 (t1 + t2), s.a, s.b, s.c, w32 (s.d + t1), s.e, s.f, s.g⟩

/-- Group a byte list into big-endian 32-bit words, four bytes at a time. -/
def bytesToWords : List Nat → List Nat
  | b0 :: b1 :: b2 :: b3 :: rest =>
      (b0 * 16777216 + b1 * 65536 + b2 * 256 + b3) :: bytesToWords rest
  | _ => []

/-- Append the next word of the SHA-256 message schedule. -/
def extendStep (ws : List Nat) : List Nat :=
  let n := ws.length
  ws ++ [w32 (smallSigma1 (ws.getD (n - 2) 0) + ws.getD (n - 7) 0 +
              smallSigma0 (ws.getD (n - 15) 0) + ws.getD (n - 16) 0)]

/-- Full 64-word message schedule of one block. -/
def shaSchedule (block : List Nat) : List Nat :=
  extendStep^[48] (bytesToWords block)

/-- SHA-256 compression of one 64-byte block into the running state. -/
def compressBlock (st : Sha8) (block : List Nat) : Sha8 :=
  let fin := ((shaK.zip (shaSchedule block)).foldl shaRound st)
  ⟨w32 (st.a + fin.a), w32 (st.b + fin.b), w32 (st.c + fin.c), w32 (st.d + fin.d),
   w32 (st.e + fin.e), w32 (st.f + fin.f), w32 (st.g + fin.g), w32 (st.h + fin.h)⟩

/-- Split a byte list into successive 64-byte chunks. -/
def chunks64 : List Nat → List (List Nat)
  | [] => []
  | x :: xs => (x :: xs).take 64 :: chunks64 ((x :: xs).drop 64)
termination_by l => l.length
decreasing_by
  simp only [List.length_drop, List.length_cons]
  omega

/-- The message bit-length as eight big-endian bytes. -/
def lenBytes8 (n : Nat) : List Nat :=
  [n / 2 ^ 56 % 256, n / 2 ^ 48 % 256, n / 2 ^ 40 % 256, n / 2 ^ 32 % 256,
   n / 2 ^ 24 % 256, n / 2 ^ 16 % 256, n / 2 ^ 8 % 256, n % 256]

/-- SHA-256 padding: `0x80`, zeros to 56 mod 64, then the 64-bit bit length. -/
def shaPad (msg : List Nat) : List Nat :=
  msg ++ [128] ++ List.replicate ((64 - (msg.length + 9) % 64) % 64) 0 ++
    lenBytes8 (msg.length * 8)

/-- The four big-endian bytes of a 32-bit word. -/
def wordBytes (w : Nat) : List Nat :=
  [w / 16777216 % 256, w / 65536 % 256, w / 256 % 256, w % 256]

/-- SHA-256 digest (32 bytes) of a byte list. -/
def sha256Bytes (msg : List Nat) : List Nat :=
  let st := (chunks64 (shaPad msg)).foldl compressBlock shaInit
  wordBytes st.a ++ wordBytes st.b ++ wordBytes st.c ++ wordBytes st.d ++
  wordBytes st.e ++ wordBytes st.f ++ wordBytes st.g ++ wordBytes st.h

/-- Lowercase hexadecimal digit for `n < 16`. -/
def hexDigit (n : Nat) : Char :=
  if n < 10 then Char.ofNat (48 + n) else Char.ofNat (87 + n)

/-- Two lowercase hex characters of one byte. -/
def byteHex (b : Nat) : List Char := [hexDigit (b / 16 % 16), hexDigit (b % 16)]

/-- Lowercase hexadecimal rendering of a byte list. -/
def bytesToHex (bs : List Nat) : String := ⟨bs.flatMap byteHex⟩

/-- The UTF-8 bytes of a string (node hashes the UTF-8 encoding). -/
def utf8Bytes (s : String) : List Nat := s.toUTF8.toList.map (fun b => b.toNat)

/-- `src/server.js` `computeHash`: lowercase-hex SHA-256 of the payload,
taken over its UTF-8 bytes, exactly as
`crypto.createHash('sha256').update(payload).digest('hex')`. -/
def computeHash (payload : String) : String :=
  bytesToHex (sha256Bytes (utf8Bytes payload))

/-! ## JS numbers and strings

The numeric values flowing through the engine are modelled as exact
rationals.  Every number the engine stores or compares is a two-decimal
amount in `(0, 100000]`, a range in which IEEE doubles represent the
comparisons and the two-decimal formatting of these values exactly, so `ℚ`
is a faithful model. -/

/-- Result of JS `parseFloat`. -/
inductive JsNum
  | nan
  | posInf
  | negInf
  | val (q : ℚ)
deriving Repr, DecidableEq

/-- JS whitespace skipped by `parseFloat` (the ASCII portion). -/
def isJsSpace (c : Char) : Bool :=
  c = ' ' || c = '\t' || c = '\n' || c = '\r' || c.toNat = 11 || c.toNat = 12

/-- Numeric value of a digit character. -/
def digitVal (c : Char) : Nat := c.toNat - 48

/-- Value of a big-endian digit-character list. -/
def digitsToNat (l : List Char) : Nat := l.foldl (fun a c => 10 * a + digitVal c) 0

/-- Take the maximal digit run off the front. -/
def spanDigits (l : List Char) : List Char × List Char := l.span Char.isDigit

/-- Exponent part accepted by `parseFloat` after the mantissa: `e`/`E`, an
optional sign and at least one digit; anything else contributes factor 1. -/
def parseExp (l : List Char) : Int :=
  match l with
  | 'e' :: rest | 'E' :: rest =>
      match rest with
      | '-' :: r => if (spanDigits r).1.isEmpty then 0 else -(digitsToNat (spanDigits r).1 : Int)
      | '+' :: r => if (spanDigits r).1.isEmpty then 0 else (digitsToNat (spanDigits r).1 : Int)
      | r => if (spanDigits r).1.isEmpty then 0 else (digitsToNat (spanDigits r).1 : Int)
  | _ => 0

/-- Mantissa accepted by `parseFloat`: digits, an optional dot, digits; at
least one digit overall.  Returns the value and the unconsumed remainder. -/
def parseMantissa (l : List Char) : Option (ℚ × List Char) :=
  let (ip, r1) := spanDigits l
  match r1 with
  | '.' :: r2 =>
      let (fp, r3) := spanDigits r2
      if ip.isEmpty && fp.isEmpty then none
      else some ((digitsToNat ip : ℚ) + (digitsToNat fp : ℚ) / 10 ^ fp.length, r3)
  | _ => if ip.isEmpty then none else some ((digitsToNat ip : ℚ), r1)

/-- `parseFloat` after the sign has been consumed. -/
def jsParseFloatAux (neg : Bool) (l : List Char) : JsNum :=
  if ['I', 'n', 'f', 'i', 'n', 'i', 't', 'y'].isPrefixOf l then
    if neg then .negInf else .posInf
  else
    match parseMantissa l with
    | none => .nan
    | some (m, rest) =>
        let e := parseExp rest
        .val ((if neg then -1 else 1) * m * (10 : ℚ) ^ e)

/-- JS `parseFloat` on a string: skip whitespace, read an optional sign, then
the longest numeric-literal head; `NaN` when no digit was read.  Trailing
garbage is ignored, exactly as in JS. -/
def jsParseFloat (s : String) : JsNum :=
  match s.data.dropWhile isJsSpace with
  | [] => jsParseFloatAux false []
  | c :: r =>
      if c = '-' then jsParseFloatAux true r
      else if c = '+' then jsParseFloatAux false r
      else jsParseFloatAux false (c :: r)

/-- The finite value of a `JsNum`, available exactly on the `val` branch. -/
def JsNum.finVal : JsNum → ℚ
  | .val q => q
  | _ => 0

/-- Digit character of `d` (total, clamping out-of-range to `'9'`). -/
def digitChar (d : Nat) : Char :=
  match d with
  | 0 => '0' | 1 => '1' | 2 => '2' | 3 => '3' | 4 => '4'
  | 5 => '5' | 6 => '6' | 7 => '7' | 8 => '8' | _ => '9'

/-- Little-endian decimal digits of `n`, driven by explicit fuel so that the
kernel can evaluate it (`fuel ≥ n` suffices). -/
def natDigitsRevFuel : Nat → Nat → List Nat
  | 0, _ => []
  | fuel + 1, n => if n = 0 then [] else n % 10 :: natDigitsRevFuel fuel (n / 10)

/-- Big-endian decimal character rendering of a natural number. -/
def natToDecChars (n : Nat) : List Char :=
  if n = 0 then ['0'] else ((natDigitsRevFuel n n).reverse).map digitChar

/-- Exactly two decimal digit characters of `m < 100`. -/
def twoDigitChars (m : Nat) : List Char := [digitChar (m / 10 % 10), digitChar (m % 10)]

/-- The integer of cents nearest to `q`, ties to the larger integer — the `n`
chosen by the ECMAScript `toFixed(2)` algorithm. -/
def round2 (q : ℚ) : Int := ⌊q * 100 + 1 / 2⌋

/-- `toFixed(2)` of a nonnegative rational. -/
def toFixed2Abs (q : ℚ) : String :=
  let c := (round2 q).toNat
  ⟨natToDecChars (c / 100) ++ '.' :: twoDigitChars (c % 100)⟩

/-- JS `x.toFixed(2)` on the exact rational model. -/
def toFixed2 (q : ℚ) : String :=
  if q < 0 then "-" ++ toFixed2Abs (-q) else toFixed2Abs q

/-- JS `String.prototype.split('.')` on the character list of a string. -/
def splitDotChars : List Char → List (List Char)
  | [] => [[]]
  | c :: rest =>
      if c = '.' then [] :: splitDotChars rest
      else
        match splitDotChars rest with
        | [] => [[c]]
        | seg :: segs => (c :: seg) :: segs

/-- `src/server.js` `validateBid` for a string input.  (A `number` input `b`
takes the identical path through its canonical text: `parseFloat(b)` and
`String(b).split('.')` both observe `String(b)`.)  Mirrors the source line by
line: `parseFloat`, then the `isNaN / <= 0 / > 100000` screen, then the
two-decimal check on the text between the first dot and the next. -/
def validateBid (bid : String) : Bool :=
  match jsParseFloat bid with
  | .nan => false                   -- isNaN(num)
  | .posInf => false                -- num > 100000
  | .negInf => false                -- num <= 0
  | .val q =>
      if q ≤ 0 then false
      else if 100000 < q then false
      else
        match splitDotChars bid.data with
        | _ :: p1 :: _ => decide (p1.length ≤ 2)   -- parts[1].length > 2 → false
        | _ => true

/-- The commit-format regex `/^[a-f0-9]{64}$/`. -/
def isHexLowerChar (c : Char) : Bool := c.isDigit || ('a' ≤ c && c ≤ 'f')

/-- A string of exactly 64 lowercase hexadecimal characters. -/
def isHex64 (s : String) : Bool := s.length == 64 && s.data.all isHexLowerChar

/-- JS truthiness of a nullable string (SQL `TEXT` column or request field):
`null` and `""` are falsy, every other string truthy. -/
def truthy : Option String → Bool
  | none => false
  | some s => s != ""

/-! ## Data model (`src/db.js`)

One row of the `auctions` table; SQL `TEXT`/`REAL` nullable columns are
`Option` fields.  The store is the table: a list of rows. -/

/-- One of the two seats of an auction. -/
inductive Seat
  | A
  | B
deriving Repr, DecidableEq

/-- The seat label used in the commit payload and the status response. -/
def seatLabel : Seat → String
  | .A => "A"
  | .B => "B"

/-- The counterpart seat. -/
def otherSeat : Seat → Seat
  | .A => .B
  | .B => .A

/-- A row of the `auctions` table. -/
structure Auction where
  id : String
  title : String
  description : Option String
  item_url : Option String
  seat_a_token : String
  seat_b_token : String
  commit_a : Option String := none
  commit_b : Option String := none
  bid_a : Option ℚ := none
  bid_b : Option ℚ := none
  secret_a : Option String := none
  secret_b : Option String := none
deriving Repr, DecidableEq

/-- The auctions table. -/
abbrev Store := List Auction

/-- `seat === 'A' ? auction.commit_a : auction.commit_b`. -/
def seatCommit (a : Auction) : Seat → Option String
  | .A => a.commit_a
  | .B => a.commit_b

/-- `seat === 'A' ? auction.bid_a : auction.bid_b`. -/
def seatBid (a : Auction) : Seat → Option ℚ
  | .A => a.bid_a
  | .B => a.bid_b

/-- The secret column of a seat. -/
def seatSecret (a : Auction) : Seat → Option String
  | .A => a.secret_a
  | .B => a.secret_b

/-- `db.getAuctionById`: `SELECT * FROM auctions WHERE id = ?`. -/
def getAuctionById (store : Store) (auctionId : String) : Option Auction :=
  store.find? (fun a => a.id == auctionId)

/-- The row filter of `db.getAuctionBySeatToken`:
`id = ? AND (seat_a_token = ? OR seat_b_token = ?)`. -/
def matchesSeatToken (a : Auction) (auctionId seatToken : String) : Bool :=
  a.id == auctionId && (a.seat_a_token == seatToken || a.seat_b_token == seatToken)

/-- `db.getAuctionBySeatToken`: row lookup plus
`seat = auction.seat_a_token === seatToken ? 'A' : 'B'`. -/
def getAuctionBySeatToken (store : Store) (auctionId seatToken : String) :
    Option (Auction × Seat) :=
  match store.find? (fun a => matchesSeatToken a auctionId seatToken) with
  | none => none
  | some a => some (a, if a.seat_a_token == seatToken then Seat.A else Seat.B)

/-- The row change of `db.setCommit`. -/
def setCommitRow (a : Auction) (seat : Seat) (commit : String) : Auction :=
  match seat with
  | .A => { a with commit_a := some commit }
  | .B => { a with commit_b := some commit }

/-- `db.setCommit`: `UPDATE auctions SET commit_x = ? WHERE id = ?`. -/
def setCommit (store : Store) (auctionId : String) (seat : Seat) (commit : String) :
    Store :=
  store.map (fun a => if a.id == auctionId then setCommitRow a seat commit else a)

/-- The row change of `db.setReveal`. -/
def setRevealRow (a : Auction) (seat : Seat) (bid : ℚ) (secret : String) : Auction :=
  match seat with
  | .A => { a with bid_a := some bid, secret_a := some secret }
  | .B => { a with bid_b := some bid, secret_b := some secret }

/-- `db.setReveal`: `UPDATE auctions SET bid_x = ?, secret_x = ? WHERE id = ?`. -/
def setReveal (store : Store) (auctionId : String) (seat : Seat) (bid : ℚ)
    (secret : String) : Store :=
  store.map (fun a => if a.id == auctionId then setRevealRow a seat bid secret else a)

/-- The row change of `db.resetCommit`. -/
def resetCommitRow (a : Auction) (seat : Seat) : Auction :=
  match seat with
  | .A => { a with commit_a := none }
  | .B => { a with commit_b := none }

/-- `db.resetCommit`: `UPDATE auctions SET commit_x = NULL WHERE id = ?`. -/
def resetCommit (store : Store) (auctionId : String) (seat : Seat) : Store :=
  store.map (fun a => if a.id == auctionId then resetCommitRow a seat else a)

/-! ## The protocol endpoints (`src/server.js`)

Each handler is the pure decision function of its Express route: the guards
run in source order and the first failing guard is the returned error; on
success the handler returns the updated store.  The JS handler returns on an
error path before any `db` write, so an error leaves the store untouched. -/

/-- The error outcomes of the endpoints (the spec section 7 taxonomy; each
constructor is one early-return branch of a handler). -/
inductive ApiError
  | MissingField       -- 400 "... are required"
  | ValidationError    -- 400 invalid commit format / invalid bid
  | NotFound           -- 404 "Auction not found or invalid token"
  | AlreadyCommitted   -- 400 "Commit already submitted"
  | Conflict           -- 400 "Cannot reset: other party has already committed"
  | PreconditionFailed -- 400 "Both parties must commit before reveal"
  | AlreadyRevealed    -- 400 "Already revealed"
  | HashMismatch       -- 400 "Hash mismatch: bid or secret does not match commit"
deriving Repr, DecidableEq

/-- `POST /api/auction/:auctionId/commit` (server.js lines 145–172).  Request
fields absent from the JSON body are modelled as `""`, which the
`!seatToken || !commit` guard treats exactly like an empty string. -/
def commitHandler (store : Store) (auctionId seatToken commit : String) :
    Except ApiError Store :=
  if seatToken == "" || commit == "" then .error .MissingField
  else if !isHex64 commit then .error .ValidationError
  else
    match getAuctionBySeatToken store auctionId seatToken with
    | none => .error .NotFound
    | some (auction, seat) =>
        if truthy (seatCommit auction seat) then .error .AlreadyCommitted
        else .ok (setCommit store auctionId seat commit)

/-- `POST /api/auction/:auctionId/reset-commit` (server.js lines 175–197). -/
def resetCommitHandler (store : Store) (auctionId seatToken : String) :
    Except ApiError Store :=
  if seatToken == "" then .error .MissingField
  else
    match getAuctionBySeatToken store auctionId seatToken with
    | none => .error .NotFound
    | some (auction, seat) =>
        if truthy (seatCommit auction (otherSeat seat)) then .error .Conflict
        else .ok (resetCommit store auctionId seat)

/-- The canonical two-decimal bid string computed at reveal time:
`parseFloat(bid).toFixed(2)` (server.js line 231). -/
def canonicalBidStr (bid : String) : String := toFixed2 (jsParseFloat bid).finVal

/-- The payload hashed at reveal time (server.js line 232):
`` `${bidStr}|${secret}|${auctionId}|${seat}` ``. -/
def revealPayload (bidStr secret auctionId : String) (seat : Seat) : String :=
  bidStr ++ "|" ++ secret ++ "|" ++ auctionId ++ "|" ++ seatLabel seat

/-- `POST /api/auction/:auctionId/reveal` (server.js lines 200–243).  The
`bid` body field is `Option`al because the guard tests `bid === undefined`
specifically (a number input is represented by its canonical text, through
which JS coerces it in both `validateBid` and `parseFloat`). -/
def revealHandler (store : Store) (auctionId seatToken : String)
    (bid : Option String) (secret : String) : Except ApiError Store :=
  match bid with
  | none => .error .MissingField
  | some bidRaw =>
      if seatToken == "" || secret == "" then .error .MissingField
      else if !validateBid bidRaw then .error .ValidationError
      else
        match getAuctionBySeatToken store auctionId seatToken with
        | none => .error .NotFound
        | some (auction, seat) =>
            if !truthy auction.commit_a || !truthy auction.commit_b then
              .error .PreconditionFailed
            else if (seatBid auction seat).isSome then .error .AlreadyRevealed
            else
              let bidStr := canonicalBidStr bidRaw
              let computedHash := computeHash (revealPayload bidStr secret auctionId seat)
              if seatCommit auction seat != some computedHash then .error .HashMismatch
              else .ok (setReveal store auctionId seat (jsParseFloat bidStr).finVal secret)

/-- The JSON body of a successful status response (server.js lines 116–140).
`mySeat` is `none` when the JS response omits the field; `revealed` is the
flag JS adds only once both bids are present (absent = `false`). -/
structure StatusPayload where
  phase : String
  hasCommitA : Bool
  hasCommitB : Bool
  hasRevealA : Bool
  hasRevealB : Bool
  title : String
  description : Option String
  itemUrl : Option String
  mySeat : Option String := none
  revealed : Bool := false
deriving Repr, DecidableEq

/-- `GET /api/auction/:auctionId/status` (server.js lines 93–142); `none` is
the 404 branch.  The optional `seatToken` query parameter is `""` when
absent, which the `if (seatToken)` guard treats identically. -/
def statusHandler (store : Store) (auctionId seatToken : String) :
    Option StatusPayload :=
  match getAuctionById store auctionId with
  | none => none
  | some auction =>
      let hasCommitA := truthy auction.commit_a
      let hasCommitB := truthy auction.commit_b
      let hasRevealA := auction.bid_a.isSome
      let hasRevealB := auction.bid_b.isSome
      let phase :=
        if hasRevealA && hasRevealB then "revealed"
        else if hasCommitA && hasCommitB then "reveal"
        else "commit"
      let mySeat :=
        if seatToken != "" then
          if auction.seat_a_token == seatToken then some "A"
          else if auction.seat_b_token == seatToken then some "B"
          else none
        else none
      some { phase := phase, hasCommitA := hasCommitA, hasCommitB := hasCommitB,
             hasRevealA := hasRevealA, hasRevealB := hasRevealB,
             title := auction.title, description := auction.description,
             itemUrl := auction.item_url, mySeat := mySeat,
             revealed := hasRevealA && hasRevealB }

/-- The JSON body of a result response once both bids are in
(server.js lines 279–288). -/
structure ResultPayload where
  title : String
  description : Option String
  itemUrl : Option String
  bidA : String
  bidB : String
  winner : String
  paymentAmount : Option String
deriving Repr, DecidableEq

/-- The three outcomes of the result endpoint. -/
inductive ResultResponse
  | notFound
  | notRevealed
  | payload (p : ResultPayload)
deriving Repr, DecidableEq

/-- `GET /api/auction/:auctionId/result` (server.js lines 246–289). -/
def resultHandler (store : Store) (auctionId : String) : ResultResponse :=
  match getAuctionById store auctionId with
  | none => .notFound
  | some auction =>
      match auction.bid_a, auction.bid_b with
      | some bidA, some bidB =>
          let winner := if bidA > bidB then "A" else if bidB > bidA then "B" else "TIE"
          let winnerBid := if bidA > bidB then bidA else if bidB > bidA then bidB else bidA
          .payload
            { title := auction.title, description := auction.description,
              itemUrl := auction.item_url,
              bidA := toFixed2 bidA, bidB := toFixed2 bidB,
              winner := winner,
              paymentAmount := if winner != "TIE" then some (toFixed2 winnerBid) else none }
      | _, _ => .notRevealed

/-- The store after an endpoint call: the new store on success, the old store
untouched on any error (the JS handler returns before any `db` write). -/
def afterCall (store : Store) : Except ApiError Store → Store
  | .ok s => s
  | .error _ => store

/-- One successful state-changing protocol call: a Commit, ResetCommit or
Reveal accepted by its endpoint.  (Failed calls do not touch the store.) -/
inductive ProtoStep (s s2 : Store) : Prop
  | commit (auctionId seatToken commit : String)
      (h : commitHandler s auctionId seatToken commit = .ok s2)
  | reset (auctionId seatToken : String)
      (h : resetCommitHandler s auctionId seatToken = .ok s2)
  | reveal (auctionId seatToken : String) (bid : Option String) (secret : String)
      (h : revealHandler s auctionId seatToken bid secret = .ok s2)

/-- Any finite sequence of successful protocol calls. -/
def ProtoReaches : Store → Store → Prop := Relation.ReflTransGen ProtoStep

/-- Store well-formedness: row ids are distinct (the `id` column is the
PRIMARY KEY), and a revealed seat sits in a fully committed auction (a bid is
only ever written by the reveal endpoint, whose guard requires both
commits). -/
@[reducible] def WfStore (s : Store) : Prop :=
  (s.map Auction.id).Nodup ∧
  ∀ a ∈ s, (a.bid_a.isSome ∨ a.bid_b.isSome) → truthy a.commit_a ∧ truthy a.commit_b

/-! ## Spec-side definitions

Definitions written from the spec's words, to be compared with the embedded
source; each doc comment says which spec sentence it renders. -/

/-- Modelled from the spec (4.3 Hash Binder): the payload string obtained by
"concatenating, in order, the bid formatted to exactly two decimal places,
the literal secret string, the auction id, and the seat label, each pair
separated by a single `|` delimiter". -/
def specPayload (bidCanonical secret auctionId seatLbl : String) : String :=
  String.intercalate "|" [bidCanonical, secret, auctionId, seatLbl]

/-- Modelled from the spec (4.3): `computeCommitHash` returns "the lowercase
hexadecimal SHA-256 digest of that UTF-8 payload". -/
def computeCommitHash (bidCanonical secret auctionId seatLbl : String) : String :=
  computeHash (specPayload bidCanonical secret auctionId seatLbl)

/-- Modelled from the spec (4.2 Bid Validator: "Accepts a numeric or
numeric-string input.  Rejects: non-numeric input ..."): the supplied text
denotes a numeric value — beyond surrounding whitespace it is entirely one
decimal numeral (optional sign, digits with at most one dot, optional
exponent). -/
def isNumericText (s : String) : Bool :=
  let l := ((s.data.dropWhile isJsSpace).reverse.dropWhile isJsSpace).reverse
  let l1 :=
    match l with
    | '-' :: r => r
    | '+' :: r => r
    | r => r
  match parseMantissa l1 with
  | none => false
  | some (_, rest) =>
      match rest with
      | [] => true
      | 'e' :: r | 'E' :: r =>
          let r2 :=
            match r with
            | '-' :: rr => rr
            | '+' :: rr => rr
            | rr => rr
          !(spanDigits r2).1.isEmpty && (spanDigits r2).2.isEmpty
      | _ => false

/-- The textual condition `validateBid` actually enforces: when the text
contains a dot, the segment strictly between the first dot and the next dot
(or the end of the text) is at most two characters long. -/
def fracSegLe2 (s : String) : Bool :=
  match splitDotChars s.data with
  | _ :: p1 :: _ => decide (p1.length ≤ 2)
  | _ => true

/-! ## Row-update and lookup lemmas -/

@[simp] theorem setCommitRow_id (a : Auction) (seat : Seat) (c : String) :
    (setCommitRow a seat c).id = a.id := by cases seat <;> rfl

@[simp] theorem setCommitRow_tokA (a : Auction) (seat : Seat) (c : String) :
    (setCommitRow a seat c).seat_a_token = a.seat_a_token := by cases seat <;> rfl

@[simp] theorem setCommitRow_tokB (a : Auction) (seat : Seat) (c : String) :
    (setCommitRow a seat c).seat_b_token = a.seat_b_token := by cases seat <;> rfl

@[simp] theorem setRevealRow_id (a : Auction) (seat : Seat) (v : ℚ) (sec : String) :
    (setRevealRow a seat v sec).id = a.id := by cases seat <;> rfl

@[simp] theorem setRevealRow_tokA (a : Auction) (seat : Seat) (v : ℚ) (sec : String) :
    (setRevealRow a seat v sec).seat_a_token = a.seat_a_token := by cases seat <;> rfl

@[simp] theorem setRevealRow_tokB (a : Auction) (seat : Seat) (v : ℚ) (sec : String) :
    (setRevealRow a seat v sec).seat_b_token = a.seat_b_token := by cases seat <;> rfl

@[simp] theorem resetCommitRow_id (a : Auction) (seat : Seat) :
    (resetCommitRow a seat).id = a.id := by cases seat <;> rfl

@[simp] theorem resetCommitRow_tokA (a : Auction) (seat : Seat) :
    (resetCommitRow a seat).seat_a_token = a.seat_a_token := by cases seat <;> rfl

@[simp] theorem resetCommitRow_tokB (a : Auction) (seat : Seat) :
    (resetCommitRow a seat).seat_b_token = a.seat_b_token := by cases seat <;> rfl

@[simp] theorem seatCommit_setCommitRow_same (a : Auction) (seat : Seat) (c : String) :
    seatCommit (setCommitRow a seat c) seat = some c := by cases seat <;> rfl

@[simp] theorem seatCommit_setCommitRow_other (a : Auction) (seat : Seat) (c : String) :
    seatCommit (setCommitRow a seat c) (otherSeat seat) = seatCommit a (otherSeat seat) := by
  cases seat <;> rfl

@[simp] theorem seatBid_setCommitRow (a : Auction) (s t : Seat) (c : String) :
    seatBid (setCommitRow a s c) t = seatBid a t := by cases s <;> cases t <;> rfl

@[simp] theorem seatSecret_setCommitRow (a : Auction) (s t : Seat) (c : String) :
    seatSecret (setCommitRow a s c) t = seatSecret a t := by cases s <;> cases t <;> rfl

@[simp] theorem seatCommit_resetCommitRow_same (a : Auction) (seat : Seat) :
    seatCommit (resetCommitRow a seat) seat = none := by cases seat <;> rfl

@[simp] theorem seatCommit_resetCommitRow_other (a : Auction) (seat : Seat) :
    seatCommit (resetCommitRow a seat) (otherSeat seat) = seatCommit a (otherSeat seat) := by
  cases seat <;> rfl

@[simp] theorem seatBid_resetCommitRow (a : Auction) (s t : Seat) :
    seatBid (resetCommitRow a s) t = seatBid a t := by cases s <;> cases t <;> rfl

@[simp] theorem seatSecret_resetCommitRow (a : Auction) (s t : Seat) :
    seatSecret (resetCommitRow a s) t = seatSecret a t := by cases s <;> cases t <;> rfl

@[simp] theorem seatCommit_setRevealRow (a : Auction) (s t : Seat) (v : ℚ) (sec : String) :
    seatCommit (setRevealRow a s v sec) t = seatCommit a t := by cases s <;> cases t <;> rfl

@[simp] theorem seatBid_setRevealRow_same (a : Auction) (seat : Seat) (v : ℚ) (sec : String) :
    seatBid (setRevealRow a seat v sec) seat = some v := by cases seat <;> rfl

@[simp] theorem seatBid_setRevealRow_other (a : Auction) (seat : Seat) (v : ℚ) (sec : String) :
    seatBid (setRevealRow a seat v sec) (otherSeat seat) = seatBid a (otherSeat seat) := by
  cases seat <;> rfl

@[simp] theorem setCommitRow_bid_a (a : Auction) (s : Seat) (c : String) :
    (setCommitRow a s c).bid_a = a.bid_a := by cases s <;> rfl

@[simp] theorem setCommitRow_bid_b (a : Auction) (s : Seat) (c : String) :
    (setCommitRow a s c).bid_b = a.bid_b := by cases s <;> rfl

@[simp] theorem resetCommitRow_bid_a (a : Auction) (s : Seat) :
    (resetCommitRow a s).bid_a = a.bid_a := by cases s <;> rfl

@[simp] theorem resetCommitRow_bid_b (a : Auction) (s : Seat) :
    (resetCommitRow a s).bid_b = a.bid_b := by cases s <;> rfl

@[simp] theorem setRevealRow_commit_a (a : Auction) (s : Seat) (v : ℚ) (sec : String) :
    (setRevealRow a s v sec).commit_a = a.commit_a := by cases s <;> rfl

@[simp] theorem setRevealRow_commit_b (a : Auction) (s : Seat) (v : ℚ) (sec : String) :
    (setRevealRow a s v sec).commit_b = a.commit_b := by cases s <;> rfl

/-- The commits of a row are what `seatCommit` reports at the two seats. -/
theorem commit_a_eq_seatCommit (a : Auction) : a.commit_a = seatCommit a .A := rfl

theorem commit_b_eq_seatCommit (a : Auction) : a.commit_b = seatCommit a .B := rfl

@[simp] theorem otherSeat_otherSeat (s : Seat) : otherSeat (otherSeat s) = s := by
  cases s <;> rfl

theorem seat_cases (s t : Seat) : t = s ∨ t = otherSeat s := by
  cases s <;> cases t <;> simp [otherSeat]

/-- `find?` commutes with a `map` whose function preserves the predicate. -/
theorem find?_map_comm (l : List Auction) (f : Auction → Auction) (p : Auction → Bool)
    (hp : ∀ a, p (f a) = p a) :
    (l.map f).find? p = (l.find? p).map f := by
  induction l with
  | nil => rfl
  | cons a t ih =>
      simp only [List.map_cons]
      cases h : p a with
      | true =>
          rw [List.find?_cons_of_pos _ (by rw [hp a]; exact h),
              List.find?_cons_of_pos _ h, Option.map_some']
      | false =>
          rw [List.find?_cons_of_neg _ (by simp [hp a, h]),
              List.find?_cons_of_neg _ (by simp [h]), ih]

/-- An id-preserving conditional row update commutes with lookup by id. -/
theorem getById_map_update (store : Store) (g : Auction → Auction)
    (hid : ∀ x, (g x).id = x.id) (sid tid : String) (a : Auction)
    (h : getAuctionById store tid = some a) :
    getAuctionById (store.map (fun x => if x.id == sid then g x else x)) tid
      = some (if a.id == sid then g a else a) := by
  unfold getAuctionById at h ⊢
  rw [find?_map_comm _ _ _ (fun x => by by_cases hx : (x.id == sid) = true <;> simp [hx, hid])]
  rw [h, Option.map_some']

/-- A row update preserving id and tokens commutes with seat resolution. -/
theorem getBySeat_map_update (store : Store) (g : Auction → Auction)
    (hid : ∀ x, (g x).id = x.id)
    (hta : ∀ x, (g x).seat_a_token = x.seat_a_token)
    (htb : ∀ x, (g x).seat_b_token = x.seat_b_token)
    (sid aid tok : String) (a : Auction) (seat : Seat)
    (h : getAuctionBySeatToken store aid tok = some (a, seat)) :
    getAuctionBySeatToken (store.map (fun x => if x.id == sid then g x else x)) aid tok
      = some (if a.id == sid then g a else a, seat) := by
  have hpres : ∀ x, matchesSeatToken (if x.id == sid then g x else x) aid tok
      = matchesSeatToken x aid tok := by
    intro x
    by_cases hx : (x.id == sid) = true <;> simp [hx, matchesSeatToken, hid, hta, htb]
  unfold getAuctionBySeatToken at h ⊢
  cases hf : store.find? (fun x => matchesSeatToken x aid tok) with
  | none => rw [hf] at h; cases h
  | some b =>
      rw [hf] at h
      have hba : b = a := by
        have := congrArg (fun o => Option.map Prod.fst o) h
        simpa using this
      subst hba
      have hseat : (if b.seat_a_token == tok then Seat.A else Seat.B) = seat := by
        have := congrArg (fun o => Option.map Prod.snd o) h
        simpa using this
      rw [find?_map_comm _ _ _ hpres, hf, Option.map_some']
      by_cases hbid : (b.id == sid) = true <;>
        simp only [hbid, if_true, if_false, hta] <;>
        simpa using hseat

/-- An id-preserving conditional row update keeps the id column unchanged,
hence keeps it nodup. -/
theorem nodupIds_map_update (s : Store) (aid0 : String) (g : Auction → Auction)
    (hid : ∀ x, (g x).id = x.id) (hnd : (s.map Auction.id).Nodup) :
    ((s.map (fun x => if x.id == aid0 then g x else x)).map Auction.id).Nodup := by
  have hsame : (s.map (fun x => if x.id == aid0 then g x else x)).map Auction.id
      = s.map Auction.id := by
    rw [List.map_map]
    refine List.map_congr_left (fun x _ => ?_)
    show (if (x.id == aid0) = true then g x else x).id = x.id
    by_cases hx : (x.id == aid0) = true
    · rw [if_pos hx, hid]
    · rw [if_neg hx]
  rw [hsame]
  exact hnd

/-- A successful lookup by id returns a member row bearing that id. -/
theorem getById_mem {s : Store} {aid : String} {a : Auction}
    (h : getAuctionById s aid = some a) : a ∈ s ∧ a.id = aid := by
  unfold getAuctionById at h
  exact ⟨List.mem_of_find?_eq_some h, by simpa using List.find?_some h⟩

/-- A row with two members of a nodup-id store sharing an id are one row. -/
theorem nodup_id_unique {s : Store} (hnd : (s.map Auction.id).Nodup)
    {x y : Auction} (hx : x ∈ s) (hy : y ∈ s) (hxy : x.id = y.id) : x = y :=
  List.inj_on_of_nodup_map hnd hx hy hxy

/-! ## Handler equations and inversions -/

/-- A well-formed commit digest is not the empty string. -/
theorem isHex64_ne_empty {c : String} (hc : isHex64 c = true) : c ≠ "" := by
  intro he
  rw [he] at hc
  exact absurd hc (by with_unfolding_all decide)

theorem truthy_some_of_ne {c : String} (h : c ≠ "") : truthy (some c) = true := by
  simp [truthy, h]

/-- The commit endpoint, once its input guards pass and the seat resolves. -/
theorem commitHandler_eq (store : Store) (aid tok c : String) (a : Auction) (seat : Seat)
    (htok : tok ≠ "") (hc : isHex64 c = true)
    (hres : getAuctionBySeatToken store aid tok = some (a, seat)) :
    commitHandler store aid tok c =
      if truthy (seatCommit a seat) then .error .AlreadyCommitted
      else .ok (setCommit store aid seat c) := by
  unfold commitHandler
  rw [if_neg (by simp [htok, isHex64_ne_empty hc]), if_neg (by simp [hc]), hres]

/-- Inversion of a successful commit call. -/
theorem commitHandler_ok_inv {store : Store} {aid tok c : String} {s2 : Store}
    (h : commitHandler store aid tok c = .ok s2) :
    isHex64 c = true ∧ ∃ a seat,
      getAuctionBySeatToken store aid tok = some (a, seat) ∧
      truthy (seatCommit a seat) = false ∧ s2 = setCommit store aid seat c := by
  unfold commitHandler at h
  split at h
  · simp at h
  split at h
  · simp at h
  next hhex =>
  split at h
  · simp at h
  next a seat heq =>
  split at h
  · simp at h
  next hcom =>
  refine ⟨by simpa using hhex, a, seat, heq, by simpa using hcom, ?_⟩
  simpa using h.symm

/-- The reset endpoint, once its input guard passes and the seat resolves. -/
theorem resetCommitHandler_eq (store : Store) (aid tok : String) (a : Auction) (seat : Seat)
    (htok : tok ≠ "") (hres : getAuctionBySeatToken store aid tok = some (a, seat)) :
    resetCommitHandler store aid tok =
      if truthy (seatCommit a (otherSeat seat)) then .error .Conflict
      else .ok (resetCommit store aid seat) := by
  unfold resetCommitHandler
  rw [if_neg (by simp [htok]), hres]

/-- Inversion of a successful reset call. -/
theorem resetCommitHandler_ok_inv {store : Store} {aid tok : String} {s2 : Store}
    (h : resetCommitHandler store aid tok = .ok s2) :
    ∃ a seat, getAuctionBySeatToken store aid tok = some (a, seat) ∧
      truthy (seatCommit a (otherSeat seat)) = false ∧ s2 = resetCommit store aid seat := by
  unfold resetCommitHandler at h
  split at h
  · simp at h
  split at h
  · simp at h
  next a seat heq =>
  split at h
  · simp at h
  next hcom =>
  exact ⟨a, seat, heq, by simpa using hcom, by simpa using h.symm⟩

/-- The reveal endpoint, once every guard up to the hash comparison passes. -/
theorem revealHandler_eq (store : Store) (aid tok raw secret : String)
    (a : Auction) (seat : Seat)
    (htok : tok ≠ "") (hsec : secret ≠ "") (hbid : validateBid raw = true)
    (hres : getAuctionBySeatToken store aid tok = some (a, seat))
    (hca : truthy a.commit_a = true) (hcb : truthy a.commit_b = true)
    (hnb : seatBid a seat = none) :
    revealHandler store aid tok (some raw) secret =
      if seatCommit a seat !=
          some (computeHash (revealPayload (canonicalBidStr raw) secret aid seat))
      then .error .HashMismatch
      else .ok (setReveal store aid seat
                  (jsParseFloat (canonicalBidStr raw)).finVal secret) := by
  simp only [revealHandler]
  rw [if_neg (by simp [htok, hsec]), if_neg (by simp [hbid]), hres]
  have h1 : (!truthy a.commit_a || !truthy a.commit_b) = false := by simp [hca, hcb]
  have h2 : (seatBid a seat).isSome = false := by simp [hnb]
  simp only [h1, h2, Bool.false_eq_true, if_false]

/-- Inversion of a successful reveal call. -/
theorem revealHandler_ok_inv {store : Store} {aid tok : String} {bid : Option String}
    {secret : String} {s2 : Store}
    (h : revealHandler store aid tok bid secret = .ok s2) :
    ∃ raw a seat, bid = some raw ∧
      getAuctionBySeatToken store aid tok = some (a, seat) ∧
      truthy a.commit_a = true ∧ truthy a.commit_b = true ∧
      seatBid a seat = none ∧
      s2 = setReveal store aid seat
             (jsParseFloat (canonicalBidStr raw)).finVal secret := by
  unfold revealHandler at h
  split at h
  · simp at h
  next raw =>
  split at h
  · simp at h
  split at h
  · simp at h
  split at h
  · simp at h
  next a seat heq =>
  split at h
  · simp at h
  next hcommits =>
  split at h
  · simp at h
  next hbidset =>
  simp only [] at h
  split at h
  · simp at h
  have hc2 : truthy a.commit_a = true ∧ truthy a.commit_b = true := by simpa using hcommits
  refine ⟨raw, a, seat, rfl, heq, hc2.1, hc2.2, ?_, by simpa using h.symm⟩
  simpa [Option.isSome_iff_ne_none] using hbidset

/-- What a successful seat resolution says about the returned row. -/
theorem getBySeat_inv {store : Store} {aid tok : String} {a : Auction} {seat : Seat}
    (h : getAuctionBySeatToken store aid tok = some (a, seat)) :
    a ∈ store ∧ a.id = aid ∧
      seat = (if a.seat_a_token == tok then Seat.A else Seat.B) ∧
      (a.seat_a_token = tok ∨ a.seat_b_token = tok) := by
  unfold getAuctionBySeatToken at h
  cases hf : store.find? (fun x => matchesSeatToken x aid tok) with
  | none => rw [hf] at h; cases h
  | some b =>
      rw [hf] at h
      have hba : b = a := by simpa using congrArg (Option.map Prod.fst) h
      subst hba
      have hm := List.find?_some hf
      unfold matchesSeatToken at hm
      simp only [Bool.and_eq_true, Bool.or_eq_true, beq_iff_eq] at hm
      refine ⟨List.mem_of_find?_eq_some hf, hm.1, ?_, hm.2⟩
      simpa using (congrArg (Option.map Prod.snd) h).symm

/-- Over values that are never the empty string, JS truthiness of a nullable
string column is exactly presence. -/
theorem truthy_eq_false_iff {o : Option String} (h : o ≠ some "") :
    truthy o = false ↔ o = none := by
  cases o with
  | none => simp [truthy]
  | some s =>
      have hs : s ≠ "" := fun he => h (by rw [he])
      simp [truthy, hs]

theorem truthy_eq_true_iff {o : Option String} (h : o ≠ some "") :
    truthy o = true ↔ o ≠ none := by
  cases o with
  | none => simp [truthy]
  | some s =>
      have hs : s ≠ "" := fun he => h (by rw [he])
      simp [truthy, hs]

/-- The result endpoint on an existing auction, as a match on the two bid
columns. -/
theorem resultHandler_eq_some (store : Store) (aid : String) (a : Auction)
    (hga : getAuctionById store aid = some a) :
    resultHandler store aid =
      match a.bid_a, a.bid_b with
      | some bidA, some bidB =>
          let winner := if bidA > bidB then "A" else if bidB > bidA then "B" else "TIE"
          let winnerBid := if bidA > bidB then bidA else if bidB > bidA then bidB else bidA
          .payload
            { title := a.title, description := a.description,
              itemUrl := a.item_url,
              bidA := toFixed2 bidA, bidB := toFixed2 bidB,
              winner := winner,
              paymentAmount := if winner != "TIE" then some (toFixed2 winnerBid) else none }
      | _, _ => .notRevealed := by
  unfold resultHandler
  rw [hga]

/-! ## Digest shape lemmas -/

theorem length_flatMap_byteHex (bs : List Nat) :
    (bs.flatMap byteHex).length = 2 * bs.length := by
  induction bs with
  | nil => rfl
  | cons b t ih =>
      simp only [List.flatMap_cons, List.length_append, ih, byteHex,
        List.length_cons, List.length_nil]
      omega

theorem sha256Bytes_length (msg : List Nat) : (sha256Bytes msg).length = 32 := by
  simp [sha256Bytes, wordBytes]

/-- A SHA-256 hex digest has exactly 64 characters. -/
theorem computeHash_length (p : String) : (computeHash p).length = 64 := by
  have h1 : ∀ l : List Char, (String.mk l).length = l.length := fun l => rfl
  show (String.mk ((sha256Bytes (utf8Bytes p)).flatMap byteHex)).length = 64
  rw [h1, length_flatMap_byteHex, sha256Bytes_length]

/-- A SHA-256 hex digest is never the empty string. -/
theorem computeHash_ne_empty (p : String) : computeHash p ≠ "" := by
  intro h
  have := computeHash_length p
  rw [h] at this
  simp [String.length] at this

theorem isHexLowerChar_hexDigit {n : Nat} (h : n < 16) :
    isHexLowerChar (hexDigit n) = true := by
  interval_cases n <;> decide

/-- Every character of a SHA-256 hex digest is a lowercase hex character. -/
theorem computeHash_chars (p : String) :
    ∀ ch ∈ (computeHash p).data, isHexLowerChar ch = true := by
  intro ch hch
  have hch' : ch ∈ (sha256Bytes (utf8Bytes p)).flatMap byteHex := hch
  rcases List.mem_flatMap.mp hch' with ⟨b, _, hb⟩
  simp only [byteHex, List.mem_cons, List.mem_singleton, List.not_mem_nil, or_false] at hb
  rcases hb with h1 | h1 <;> subst h1 <;>
    exact isHexLowerChar_hexDigit (Nat.mod_lt _ (by omega))

/-! ## String cancellation lemmas -/

theorem string_append_cancel_right {x y r : String} (h : x ++ r = y ++ r) : x = y := by
  have hd : x.data ++ r.data = y.data ++ r.data := by
    have h2 := congrArg String.data h
    rwa [String.data_append, String.data_append] at h2
  exact String.ext (List.append_cancel_right hd)

theorem string_append_cancel_left {x y l : String} (h : l ++ x = l ++ y) : x = y := by
  have hd : l.data ++ x.data = l.data ++ y.data := by
    have h2 := congrArg String.data h
    rwa [String.data_append, String.data_append] at h2
  exact String.ext (List.append_cancel_left hd)

/-- The seat label determines the seat. -/
theorem seatLabel_inj {s t : Seat} (h : seatLabel s = seatLabel t) : s = t := by
  cases s <;> cases t <;> first | rfl | (exact absurd h (by decide))

/-! ## Decimal formatting and parsing round-trip -/

theorem digitChar_mem (d : Nat) :
    digitChar d ∈ ['0', '1', '2', '3', '4', '5', '6', '7', '8', '9'] := by
  unfold digitChar
  split <;> simp

theorem isDigit_digitChar (d : Nat) : (digitChar d).isDigit = true := by
  have h : ∀ ch ∈ ['0', '1', '2', '3', '4', '5', '6', '7', '8', '9'],
      ch.isDigit = true := by decide
  exact h _ (digitChar_mem d)

theorem isJsSpace_digitChar (d : Nat) : isJsSpace (digitChar d) = false := by
  have h : ∀ ch ∈ ['0', '1', '2', '3', '4', '5', '6', '7', '8', '9'],
      isJsSpace ch = false := by decide
  exact h _ (digitChar_mem d)

theorem digitChar_ne_dash (d : Nat) : ¬ digitChar d = '-' := by
  have h : ∀ ch ∈ ['0', '1', '2', '3', '4', '5', '6', '7', '8', '9'],
      ¬ ch = '-' := by decide
  exact h _ (digitChar_mem d)

theorem digitChar_ne_plus (d : Nat) : ¬ digitChar d = '+' := by
  have h : ∀ ch ∈ ['0', '1', '2', '3', '4', '5', '6', '7', '8', '9'],
      ¬ ch = '+' := by decide
  exact h _ (digitChar_mem d)

theorem inf_not_prefix_digit (d : Nat) (rest : List Char) :
    (['I', 'n', 'f', 'i', 'n', 'i', 't', 'y'].isPrefixOf (digitChar d :: rest)) = false := by
  have h : ('I' == digitChar d) = false := by
    have h2 : ∀ ch ∈ ['0', '1', '2', '3', '4', '5', '6', '7', '8', '9'],
        ('I' == ch) = false := by decide
    exact h2 _ (digitChar_mem d)
  simp [List.isPrefixOf, h]

theorem digitVal_digitChar {d : Nat} (h : d < 10) : digitVal (digitChar d) = d := by
  interval_cases d <;> decide

theorem natDigitsRevFuel_lt10 (fuel : Nat) :
    ∀ n, ∀ d ∈ natDigitsRevFuel fuel n, d < 10 := by
  induction fuel with
  | zero => intro n d hd; cases hd
  | succ f ih =>
      intro n d hd
      simp only [natDigitsRevFuel] at hd
      by_cases hn : n = 0
      · rw [if_pos hn] at hd; cases hd
      · rw [if_neg hn] at hd
        rcases List.mem_cons.mp hd with h | h
        · subst h; exact Nat.mod_lt _ (by omega)
        · exact ih _ d h

theorem foldr_natDigitsRevFuel (fuel : Nat) :
    ∀ n, n ≤ fuel →
      (natDigitsRevFuel fuel n).foldr (fun d a => 10 * a + d) 0 = n := by
  induction fuel with
  | zero => intro n h; interval_cases n; rfl
  | succ f ih =>
      intro n h
      simp only [natDigitsRevFuel]
      by_cases hn : n = 0
      · rw [if_pos hn, hn]; rfl
      · rw [if_neg hn]
        simp only [List.foldr_cons]
        rw [ih (n / 10) (by omega)]
        omega

theorem digitsToNat_natToDecChars (n : Nat) : digitsToNat (natToDecChars n) = n := by
  by_cases hn : n = 0
  · subst hn; rfl
  · unfold natToDecChars
    rw [if_neg hn, List.map_reverse]
    unfold digitsToNat
    rw [List.foldl_reverse, List.foldr_map]
    have hgen : ∀ l : List Nat, (∀ d ∈ l, d < 10) →
        l.foldr (fun d a => 10 * a + digitVal (digitChar d)) 0
          = l.foldr (fun d a => 10 * a + d) 0 := by
      intro l hl
      induction l with
      | nil => rfl
      | cons d t iht =>
          simp only [List.foldr_cons]
          rw [digitVal_digitChar (hl d (List.mem_cons_self d t)),
            iht (fun x hx => hl x (List.mem_cons_of_mem _ hx))]
    rw [hgen _ (natDigitsRevFuel_lt10 n n)]
    exact foldr_natDigitsRevFuel n n le_rfl

theorem digitsToNat_twoDigitChars {m : Nat} (h : m < 100) :
    digitsToNat (twoDigitChars m) = m := by
  unfold twoDigitChars digitsToNat
  simp only [List.foldl]
  rw [digitVal_digitChar (Nat.mod_lt _ (by omega)),
    digitVal_digitChar (Nat.mod_lt _ (by omega))]
  omega

theorem natToDecChars_digits (n : Nat) : ∀ c ∈ natToDecChars n, c.isDigit = true := by
  intro c hc
  unfold natToDecChars at hc
  by_cases hn : n = 0
  · rw [if_pos hn] at hc
    simp only [List.mem_singleton] at hc
    subst hc; decide
  · rw [if_neg hn] at hc
    obtain ⟨d, _, hd⟩ := List.mem_map.mp hc
    rw [← hd]
    exact isDigit_digitChar d

theorem natToDecChars_shape (n : Nat) : ∃ d t, natToDecChars n = digitChar d :: t := by
  unfold natToDecChars
  by_cases hn : n = 0
  · rw [if_pos hn]; exact ⟨0, [], rfl⟩
  · rw [if_neg hn]
    have hne : natDigitsRevFuel n n ≠ [] := by
      obtain ⟨f, rfl⟩ : ∃ f, n = f + 1 := ⟨n - 1, by omega⟩
      simp [natDigitsRevFuel, hn]
    have hne2 : ((natDigitsRevFuel n n).reverse.map digitChar) ≠ [] := by
      simpa using hne
    obtain ⟨c0, t, hct⟩ := List.exists_cons_of_ne_nil hne2
    have hc0 : c0 ∈ (natDigitsRevFuel n n).reverse.map digitChar := by
      rw [hct]; exact List.mem_cons_self _ _
    obtain ⟨d, _, hd⟩ := List.mem_map.mp hc0
    exact ⟨d, t, by rw [hct, ← hd]⟩

theorem twoDigitChars_digits (m : Nat) : ∀ c ∈ twoDigitChars m, c.isDigit = true := by
  intro c hc
  unfold twoDigitChars at hc
  rcases List.mem_cons.mp hc with h | h
  · subst h; exact isDigit_digitChar _
  · simp only [List.mem_singleton] at h
    subst h; exact isDigit_digitChar _

theorem takeWhile_dropWhile_digits (d : List Char) (hd : ∀ c ∈ d, c.isDigit = true)
    (r : List Char) (hr : r = [] ∨ ∃ c rs, r = c :: rs ∧ c.isDigit = false) :
    (d ++ r).takeWhile Char.isDigit = d ∧ (d ++ r).dropWhile Char.isDigit = r := by
  induction d with
  | nil =>
      rcases hr with h | ⟨c, rs, h, hdig⟩
      · subst h; exact ⟨rfl, rfl⟩
      · subst h
        constructor
        · rw [List.nil_append, List.takeWhile_cons, hdig]; rfl
        · rw [List.nil_append, List.dropWhile_cons]
          simp [hdig]
  | cons c0 t ih =>
      have h0 : c0.isDigit = true := hd c0 (List.mem_cons_self _ _)
      obtain ⟨iht, ihd⟩ := ih (fun c hc => hd c (List.mem_cons_of_mem _ hc))
      constructor
      · rw [List.cons_append, List.takeWhile_cons, h0]
        simp [iht]
      · rw [List.cons_append, List.dropWhile_cons, h0]
        simp [ihd]

theorem spanDigits_append (d : List Char) (hd : ∀ c ∈ d, c.isDigit = true)
    (r : List Char) (hr : r = [] ∨ ∃ c rs, r = c :: rs ∧ c.isDigit = false) :
    spanDigits (d ++ r) = (d, r) := by
  obtain ⟨h1, h2⟩ := takeWhile_dropWhile_digits d hd r hr
  unfold spanDigits
  rw [List.span_eq_take_drop, h1, h2]

theorem parseMantissa_decimal (n m : Nat) (hm : m < 100) :
    parseMantissa (natToDecChars n ++ '.' :: twoDigitChars m)
      = some ((n : ℚ) + (m : ℚ) / 100, []) := by
  have hspan1 : spanDigits (natToDecChars n ++ '.' :: twoDigitChars m)
      = (natToDecChars n, '.' :: twoDigitChars m) :=
    spanDigits_append _ (natToDecChars_digits n) _
      (Or.inr ⟨'.', twoDigitChars m, rfl, by decide⟩)
  have hspan2 : spanDigits (twoDigitChars m ++ []) = (twoDigitChars m, []) :=
    spanDigits_append _ (twoDigitChars_digits m) _ (Or.inl rfl)
  rw [List.append_nil] at hspan2
  have hne : natToDecChars n ≠ [] := by
    obtain ⟨d, t, hdt⟩ := natToDecChars_shape n
    rw [hdt]; exact List.cons_ne_nil _ _
  unfold parseMantissa
  rw [hspan1]
  show (match ('.' :: twoDigitChars m : List Char) with
    | '.' :: r2 =>
        let (fp, r3) := spanDigits r2
        if (natToDecChars n).isEmpty && fp.isEmpty then none
        else some ((digitsToNat (natToDecChars n) : ℚ)
          + (digitsToNat fp : ℚ) / 10 ^ fp.length, r3)
    | _ => if (natToDecChars n).isEmpty then none
        else some ((digitsToNat (natToDecChars n) : ℚ), '.' :: twoDigitChars m)) = _
  show (let (fp, r3) := spanDigits (twoDigitChars m)
    if (natToDecChars n).isEmpty && fp.isEmpty then none
    else some ((digitsToNat (natToDecChars n) : ℚ)
      + (digitsToNat fp : ℚ) / 10 ^ fp.length, r3)) = _
  rw [hspan2]
  show (if (natToDecChars n).isEmpty && (twoDigitChars m).isEmpty then none
    else some ((digitsToNat (natToDecChars n) : ℚ)
      + (digitsToNat (twoDigitChars m) : ℚ) / 10 ^ (twoDigitChars m).length, [])) = _
  rw [if_neg (by simp [List.isEmpty_iff, hne])]
  rw [digitsToNat_natToDecChars, digitsToNat_twoDigitChars hm]
  norm_num [twoDigitChars]

theorem jsParseFloat_decimal (n m : Nat) (hm : m < 100) :
    jsParseFloat ⟨natToDecChars n ++ '.' :: twoDigitChars m⟩
      = .val ((n : ℚ) + (m : ℚ) / 100) := by
  obtain ⟨d0, t, hshape⟩ := natToDecChars_shape n
  unfold jsParseFloat
  show (match (natToDecChars n ++ '.' :: twoDigitChars m).dropWhile isJsSpace with
    | [] => jsParseFloatAux false []
    | c :: r =>
        if c = '-' then jsParseFloatAux true r
        else if c = '+' then jsParseFloatAux false r
        else jsParseFloatAux false (c :: r)) = _
  rw [hshape, List.cons_append, List.dropWhile_cons, isJsSpace_digitChar]
  show (if digitChar d0 = '-' then jsParseFloatAux true (t ++ '.' :: twoDigitChars m)
    else if digitChar d0 = '+' then jsParseFloatAux false (t ++ '.' :: twoDigitChars m)
    else jsParseFloatAux false (digitChar d0 :: (t ++ '.' :: twoDigitChars m))) = _
  rw [if_neg (digitChar_ne_dash d0), if_neg (digitChar_ne_plus d0)]
  unfold jsParseFloatAux
  rw [← List.cons_append, ← hshape]
  have hpre : (['I', 'n', 'f', 'i', 'n', 'i', 't', 'y'].isPrefixOf
      (natToDecChars n ++ '.' :: twoDigitChars m)) = false := by
    rw [hshape, List.cons_append]
    exact inf_not_prefix_digit d0 _
  rw [hpre]
  show (match parseMantissa (natToDecChars n ++ '.' :: twoDigitChars m) with
    | none => JsNum.nan
    | some (mv, rest) =>
        JsNum.val ((if (false : Bool) then -1 else 1) * mv * (10 : ℚ) ^ parseExp rest)) = _
  rw [parseMantissa_decimal n m hm]
  show JsNum.val ((if (false : Bool) then -1 else 1)
      * ((n : ℚ) + (m : ℚ) / 100) * (10 : ℚ) ^ parseExp []) = _
  norm_num [parseExp]

theorem round2_cents (c : Nat) : round2 ((c : ℚ) / 100) = c := by
  unfold round2
  rw [div_mul_cancel₀ _ (by norm_num : (100 : ℚ) ≠ 0)]
  rw [show ((c : ℚ) + 1 / 2) = ((c : ℤ) : ℚ) + 1 / 2 by push_cast; ring]
  rw [Int.floor_int_add]
  rw [show ⌊(1 : ℚ) / 2⌋ = 0 from Int.floor_eq_zero_iff.mpr (by constructor <;> norm_num)]
  simp

/-- `toFixed(2)` then `parseFloat` recovers exactly the rounded cents, whose
`toFixed(2)` is the original string. -/
theorem toFixed2_parse_roundtrip (q : ℚ) (hq : 0 ≤ q) :
    jsParseFloat (toFixed2 q) = .val (((round2 q).toNat : ℚ) / 100) ∧
    toFixed2 (((round2 q).toNat : ℚ) / 100) = toFixed2 q := by
  have hqpos : ¬ q < 0 := not_lt.mpr hq
  have ht : toFixed2 q
      = ⟨natToDecChars ((round2 q).toNat / 100) ++ '.'
          :: twoDigitChars ((round2 q).toNat % 100)⟩ := by
    unfold toFixed2
    rw [if_neg hqpos]
    rfl
  constructor
  · rw [ht, jsParseFloat_decimal _ _ (Nat.mod_lt _ (by omega))]
    congr 1
    field_simp
    norm_cast
    omega
  · have hnn : ¬ ((((round2 q).toNat : ℚ) / 100) < 0) := by
      rw [not_lt]
      positivity
    unfold toFixed2
    rw [if_neg hnn, if_neg hqpos]
    unfold toFixed2Abs
    rw [round2_cents, Int.toNat_natCast]

/-- A bid accepted by the validator parses to a finite value in the range. -/
theorem validateBid_parses {b : String} (h : validateBid b = true) :
    ∃ q : ℚ, jsParseFloat b = .val q ∧ 0 < q ∧ q ≤ 100000 := by
  unfold validateBid at h
  cases hp : jsParseFloat b with
  | nan => rw [hp] at h; cases h
  | posInf => rw [hp] at h; cases h
  | negInf => rw [hp] at h; cases h
  | val q =>
      rw [hp] at h
      have h2 : (if q ≤ 0 then false
        else if 100000 < q then false
        else match splitDotChars b.data with
          | _ :: p1 :: _ => decide (p1.length ≤ 2)
          | _ => true) = true := h
      by_cases h3 : q ≤ 0
      · rw [if_pos h3] at h2; cases h2
      · by_cases h4 : 100000 < q
        · rw [if_neg h3, if_pos h4] at h2; cases h2
        · exact ⟨q, rfl, lt_of_not_le h3, le_of_not_lt h4⟩

/-- The canonical bid string round-trips: `parseFloat` of it yields the
rounded cents, and formatting that stored value gives the same string. -/
theorem canonicalBidStr_roundtrip {raw : String} (hb : validateBid raw = true) :
    jsParseFloat (canonicalBidStr raw)
      = .val (((round2 (jsParseFloat raw).finVal).toNat : ℚ) / 100) ∧
    toFixed2 ((jsParseFloat (canonicalBidStr raw)).finVal) = canonicalBidStr raw := by
  obtain ⟨q, hq, h0, _⟩ := validateBid_parses hb
  have hfin : (jsParseFloat raw).finVal = q := by rw [hq]; rfl
  have hrt := toFixed2_parse_roundtrip q (le_of_lt h0)
  unfold canonicalBidStr
  rw [hfin]
  refine ⟨hrt.1, ?_⟩
  rw [hrt.1]
  show toFixed2 (((round2 q).toNat : ℚ) / 100) = toFixed2 q
  exact hrt.2

/-! ## Witness fixtures -/

/-- A fresh auction row used by the concrete witnesses. -/
def wAuction : Auction :=
  { id := "aid1", title := "Lamp", description := none, item_url := none,
    seat_a_token := "tokA1", seat_b_token := "tokB1" }

/-- A well-formed 64-hex digest. -/
def wHexA : String :=
  "aaaaaaaaaaaaaaaaaaaaaaaaaaaaaaaaaaaaaaaaaaaaaaaaaaaaaaaaaaaaaaaa"

/-- Another well-formed 64-hex digest. -/
def wHexB : String :=
  "0123456789abcdef0123456789abcdef0123456789abcdef0123456789abcdef"

/-- The witness row after both parties committed. -/
def wCommitted : Auction := { wAuction with commit_a := some wHexA, commit_b := some wHexB }

/-! ## Claims -/

/-- **C5** — `Commit(auctionId, seatToken, commitDigest)` is one-shot per
seat: with the request fields present, a well-formed digest and a resolved
seat, the call fails `AlreadyCommitted` whenever that seat already has a
commit — whatever the digest value, the identical one included — and
otherwise sets exactly that seat's commit field to the supplied digest: the
updated row is the old row with only that one field replaced, so nothing of
the other seat or of any other field of the record changes. -/
theorem commit_one_shot (store : Store) (aid tok c : String) (a : Auction) (seat : Seat)
    (htok : tok ≠ "") (hc : isHex64 c = true)
    (hres : getAuctionBySeatToken store aid tok = some (a, seat)) :
    (truthy (seatCommit a seat) = true →
      commitHandler store aid tok c = .error .AlreadyCommitted ∧
      afterCall store (commitHandler store aid tok c) = store) ∧
    (truthy (seatCommit a seat) = false →
      commitHandler store aid tok c = .ok (setCommit store aid seat c) ∧
      getAuctionBySeatToken (setCommit store aid seat c) aid tok
        = some (setCommitRow a seat c, seat) ∧
      (seat = .A → setCommitRow a seat c = { a with commit_a := some c }) ∧
      (seat = .B → setCommitRow a seat c = { a with commit_b := some c })) := by
  have heq := commitHandler_eq store aid tok c a seat htok hc hres
  constructor
  · intro hcom
    rw [heq, if_pos hcom]
    exact ⟨rfl, rfl⟩
  · intro hcom
    rw [heq, if_neg (by simp [hcom])]
    have h2 := getBySeat_map_update store (fun x => setCommitRow x seat c)
      (fun x => by simp) (fun x => by simp) (fun x => by simp) aid aid tok a seat hres
    have hid : (a.id == aid) = true := beq_iff_eq.mpr (getBySeat_inv hres).2.1
    simp only [hid, if_true] at h2
    refine ⟨rfl, h2, ?_, ?_⟩
    · intro hseat; subst hseat; rfl
    · intro hseat; subst hseat; rfl

/-- Witness for C5: in a one-row store with no commit at seat A, the commit
call succeeds and writes seat A's digest. -/
theorem commit_one_shot_witness :
    commitHandler [wAuction] "aid1" "tokA1" wHexA
      = .ok (setCommit [wAuction] "aid1" Seat.A wHexA) :=
  ((commit_one_shot [wAuction] "aid1" "tokA1" wHexA wAuction Seat.A
      (by decide)
      (by with_unfolding_all decide)
      (by with_unfolding_all decide)).2
    (by with_unfolding_all decide)).1

/-- **C3** — `ResetCommit(auctionId, seatToken)` on a resolved seat (whose
counterpart commit, as every stored commit, is never the empty string)
succeeds exactly when the other seat's commit field is absent; when the
other seat has a commit it fails `Conflict` and leaves the store untouched,
and when it succeeds it clears exactly this seat's commit field: the updated
row is the old row with only that one field set to `none`, so every
bid/secret field (and everything else) is untouched. -/
theorem reset_iff_other_absent (store : Store) (aid tok : String) (a : Auction) (seat : Seat)
    (htok : tok ≠ "") (hres : getAuctionBySeatToken store aid tok = some (a, seat))
    (hshape : seatCommit a (otherSeat seat) ≠ some "") :
    ((∃ s2, resetCommitHandler store aid tok = .ok s2) ↔
      seatCommit a (otherSeat seat) = none) ∧
    (seatCommit a (otherSeat seat) ≠ none →
      resetCommitHandler store aid tok = .error .Conflict ∧
      afterCall store (resetCommitHandler store aid tok) = store) ∧
    (seatCommit a (otherSeat seat) = none →
      resetCommitHandler store aid tok = .ok (resetCommit store aid seat) ∧
      getAuctionBySeatToken (resetCommit store aid seat) aid tok
        = some (resetCommitRow a seat, seat) ∧
      (seat = .A → resetCommitRow a seat = { a with commit_a := none }) ∧
      (seat = .B → resetCommitRow a seat = { a with commit_b := none })) := by
  have heq := resetCommitHandler_eq store aid tok a seat htok hres
  refine ⟨?_, ?_, ?_⟩
  · constructor
    · rintro ⟨s2, hs2⟩
      rw [heq] at hs2
      by_cases hcom : truthy (seatCommit a (otherSeat seat)) = true
      · rw [if_pos hcom] at hs2; cases hs2
      · exact (truthy_eq_false_iff hshape).mp (by simpa using hcom)
    · intro hnone
      have : truthy (seatCommit a (otherSeat seat)) = false :=
        (truthy_eq_false_iff hshape).mpr hnone
      exact ⟨_, by rw [heq, if_neg (by simp [this])]⟩
  · intro hsome
    have hcom : truthy (seatCommit a (otherSeat seat)) = true :=
      (truthy_eq_true_iff hshape).mpr hsome
    rw [heq, if_pos hcom]
    exact ⟨rfl, rfl⟩
  · intro hnone
    have hcom : truthy (seatCommit a (otherSeat seat)) = false :=
      (truthy_eq_false_iff hshape).mpr hnone
    rw [heq, if_neg (by simp [hcom])]
    have h2 := getBySeat_map_update store (fun x => resetCommitRow x seat)
      (fun x => by simp) (fun x => by simp) (fun x => by simp) aid aid tok a seat hres
    have hid : (a.id == aid) = true := beq_iff_eq.mpr (getBySeat_inv hres).2.1
    simp only [hid, if_true] at h2
    refine ⟨rfl, h2, ?_, ?_⟩
    · intro hseat; subst hseat; rfl
    · intro hseat; subst hseat; rfl

/-- Witness for C3: seat A resets its lone commit while seat B has none. -/
theorem reset_iff_other_absent_witness :
    resetCommitHandler [{ wAuction with commit_a := some wHexA }] "aid1" "tokA1"
      = .ok (resetCommit [{ wAuction with commit_a := some wHexA }] "aid1" Seat.A) :=
  (((reset_iff_other_absent [{ wAuction with commit_a := some wHexA }] "aid1" "tokA1"
      { wAuction with commit_a := some wHexA } Seat.A
      (by decide)
      (by with_unfolding_all decide)
      (by with_unfolding_all decide)).2.2)
    (by with_unfolding_all decide)).1

/-- **C9** (counterexample) — at a request whose auction id and seat token do
not resolve *and* whose digest is malformed, Commit fails `ValidationError`,
not `NotFound` as the claim requires: the format check runs first. -/
theorem commit_order_counterexample :
    getAuctionBySeatToken ([] : Store) "aid1" "tokA1" = none ∧
    commitHandler ([] : Store) "aid1" "tokA1" "zzz" = .error .ValidationError ∧
    ApiError.ValidationError ≠ ApiError.NotFound := by
  refine ⟨rfl, by with_unfolding_all rfl, by decide⟩

/-- **C9** (amended) — Commit validates the digest format *before* resolving
the seat: with both request fields present, a malformed digest fails
`ValidationError` even when the auction id or seat token does not resolve,
and `NotFound` is reached exactly on a well-formed digest whose seat does
not resolve. -/
theorem commit_format_before_resolution (store : Store) (aid tok c : String)
    (htok : tok ≠ "") (hc : c ≠ "") :
    (isHex64 c = false → commitHandler store aid tok c = .error .ValidationError) ∧
    (isHex64 c = true → getAuctionBySeatToken store aid tok = none →
      commitHandler store aid tok c = .error .NotFound) := by
  constructor
  · intro hh
    unfold commitHandler
    rw [if_neg (by simp [htok, hc]), if_pos (by simp [hh])]
  · intro hh hnone
    unfold commitHandler
    rw [if_neg (by simp [htok, hc]), if_neg (by simp [hh]), hnone]

/-- Witness for the amended C9, at a malformed digest over the empty store. -/
theorem commit_format_before_resolution_witness :
    commitHandler ([] : Store) "aid1" "tokA1" "zzz9" = .error .ValidationError :=
  (commit_format_before_resolution [] "aid1" "tokA1" "zzz9"
      (by decide) (by decide)).1 (by with_unfolding_all decide)

/-- **C2** — the digest verified at reveal time is the spec's Hash Binder:
`computeHash` of the reveal payload equals `computeCommitHash` — the
lowercase hexadecimal SHA-256 of the UTF-8 string concatenating the
two-decimal bid, the literal secret, the auction id and the seat label with
a single `|` between consecutive parts; the digest consists of exactly 64
lowercase hex characters; and (determinism being definitional for a pure
function) changing any single one of the four components with the other
three fixed changes the payload. -/
theorem hash_binder_correct (bidStr secret aid : String) (seat : Seat) :
    computeHash (revealPayload bidStr secret aid seat)
      = computeCommitHash bidStr secret aid (seatLabel seat) ∧
    (computeHash (revealPayload bidStr secret aid seat)).length = 64 ∧
    (∀ ch ∈ (computeHash (revealPayload bidStr secret aid seat)).data,
        isHexLowerChar ch = true) ∧
    (∀ b2, revealPayload b2 secret aid seat = revealPayload bidStr secret aid seat →
        b2 = bidStr) ∧
    (∀ s2, revealPayload bidStr s2 aid seat = revealPayload bidStr secret aid seat →
        s2 = secret) ∧
    (∀ i2, revealPayload bidStr secret i2 seat = revealPayload bidStr secret aid seat →
        i2 = aid) ∧
    (∀ t2, revealPayload bidStr secret aid t2 = revealPayload bidStr secret aid seat →
        t2 = seat) := by
  refine ⟨rfl, computeHash_length _, computeHash_chars _, ?_, ?_, ?_, ?_⟩
  · intro b2 h
    have hd := congrArg String.data h
    simp only [revealPayload, String.data_append, List.append_assoc] at hd
    exact String.ext (List.append_cancel_right hd)
  · intro s2 h
    have hd := congrArg String.data h
    simp only [revealPayload, String.data_append, List.append_assoc] at hd
    exact String.ext
      (List.append_cancel_right (List.append_cancel_left (List.append_cancel_left hd)))
  · intro i2 h
    have hd := congrArg String.data h
    simp only [revealPayload, String.data_append, List.append_assoc] at hd
    exact String.ext (List.append_cancel_right (List.append_cancel_left
      (List.append_cancel_left (List.append_cancel_left (List.append_cancel_left hd)))))
  · intro t2 h
    have hd := congrArg String.data h
    simp only [revealPayload, String.data_append, List.append_assoc] at hd
    exact seatLabel_inj (String.ext (List.append_cancel_left (List.append_cancel_left
      (List.append_cancel_left (List.append_cancel_left
        (List.append_cancel_left (List.append_cancel_left hd)))))))

/-- Witness for C2: two payloads differing only in the secret differ. -/
theorem hash_binder_correct_witness :
    revealPayload "150.00" "walnut" "aid1" Seat.A
      ≠ revealPayload "150.00" "peanut" "aid1" Seat.A := by
  intro h
  have h2 := (hash_binder_correct "150.00" "peanut" "aid1" Seat.A).2.2.2.2.1 "walnut" h
  exact absurd h2 (by decide)

/-- Payload of the reveal-witness commitment. -/
def wPayloadA : String := revealPayload "150.00" "peanut" "aid1" Seat.A

/-- A row both of whose seats committed; seat A's commit binds bid `150.00`
with secret `peanut`. -/
def wRevealReady : Auction :=
  { wAuction with commit_a := some (computeHash wPayloadA), commit_b := some wHexB }

/-- **C1** — reveal succeeds exactly on the matching digest: for a resolved
seat of an auction with both commits present and this seat's bid not yet set
(request fields present, bid valid), Reveal succeeds iff the SHA-256 digest
computed per the Hash Binder from the supplied bid and secret — over the
canonical two-decimal bid string, this auction's id and this seat's label —
equals the commit stored for that seat; when the digests differ it fails
`HashMismatch` and the store, the stored commit in particular, is completely
unchanged, so the same seat may retry Reveal. -/
theorem reveal_iff_hash_match (store : Store) (aid tok raw secret : String)
    (a : Auction) (seat : Seat)
    (htok : tok ≠ "") (hsec : secret ≠ "") (hb : validateBid raw = true)
    (hres : getAuctionBySeatToken store aid tok = some (a, seat))
    (hca : truthy a.commit_a = true) (hcb : truthy a.commit_b = true)
    (hnb : seatBid a seat = none) :
    ((∃ s2, revealHandler store aid tok (some raw) secret = .ok s2) ↔
      seatCommit a seat =
        some (computeHash (revealPayload (canonicalBidStr raw) secret aid seat))) ∧
    (seatCommit a seat ≠
        some (computeHash (revealPayload (canonicalBidStr raw) secret aid seat)) →
      revealHandler store aid tok (some raw) secret = .error .HashMismatch ∧
      afterCall store (revealHandler store aid tok (some raw) secret) = store) := by
  have heq := revealHandler_eq store aid tok raw secret a seat htok hsec hb hres hca hcb hnb
  constructor
  · constructor
    · rintro ⟨s2, hs2⟩
      rw [heq] at hs2
      by_cases hmm : seatCommit a seat =
          some (computeHash (revealPayload (canonicalBidStr raw) secret aid seat))
      · exact hmm
      · rw [if_pos (by simp [hmm])] at hs2
        cases hs2
    · intro hmm
      exact ⟨_, by rw [heq, if_neg (by simp [hmm])]⟩
  · intro hmm
    rw [heq, if_pos (by simp [hmm])]
    exact ⟨rfl, rfl⟩

/-- Witness for C1: seat A reveals `150.00` with secret `peanut` against the
commitment that binds exactly these values, and the reveal is accepted. -/
theorem reveal_iff_hash_match_witness :
    ∃ s2, revealHandler [wRevealReady] "aid1" "tokA1" (some "150.00") "peanut" = .ok s2 := by
  have hc : canonicalBidStr "150.00" = "150.00" := by with_unfolding_all decide
  apply (reveal_iff_hash_match [wRevealReady] "aid1" "tokA1" "150.00" "peanut"
      wRevealReady Seat.A
      (by decide) (by decide) (by with_unfolding_all decide)
      (by with_unfolding_all rfl)
      (truthy_some_of_ne (computeHash_ne_empty wPayloadA))
      (by with_unfolding_all decide)
      rfl).1.mpr
  show some (computeHash wPayloadA) = _
  rw [hc]
  rfl

/-- **C7** — GetResult fails `NotFound` exactly when no auction has the id;
when the auction exists and either bid is missing, the response is the bare
`revealed:false`, disclosing nothing else; and when both bids are present
the winner follows strict numeric comparison — `A` if bidA > bidB, `B` if
bidB > bidA, `TIE` on equality — with `paymentAmount` the winning bid
formatted to two decimals (`none` on a tie) and both bids echoed formatted
to two decimals. -/
theorem result_correct (store : Store) (aid : String) :
    (resultHandler store aid = .notFound ↔ getAuctionById store aid = none) ∧
    (∀ a, getAuctionById store aid = some a → (a.bid_a = none ∨ a.bid_b = none) →
      resultHandler store aid = .notRevealed) ∧
    (∀ a va vb, getAuctionById store aid = some a →
      a.bid_a = some va → a.bid_b = some vb →
      ∃ p, resultHandler store aid = .payload p ∧
        p.bidA = toFixed2 va ∧ p.bidB = toFixed2 vb ∧
        (va > vb → p.winner = "A" ∧ p.paymentAmount = some (toFixed2 va)) ∧
        (vb > va → p.winner = "B" ∧ p.paymentAmount = some (toFixed2 vb)) ∧
        (va = vb → p.winner = "TIE" ∧ p.paymentAmount = none)) := by
  refine ⟨?_, ?_, ?_⟩
  · constructor
    · intro hr
      cases hga : getAuctionById store aid with
      | none => rfl
      | some a =>
          rw [resultHandler_eq_some store aid a hga] at hr
          rcases ha : a.bid_a with _ | va <;> rcases hb : a.bid_b with _ | vb <;>
            rw [ha, hb] at hr <;> simp at hr
    · intro hnone
      unfold resultHandler
      rw [hnone]
  · intro a hga hmiss
    rw [resultHandler_eq_some store aid a hga]
    rcases ha : a.bid_a with _ | va <;> rcases hb : a.bid_b with _ | vb
    · rfl
    · rfl
    · rfl
    · exfalso
      rcases hmiss with h | h
      · rw [ha] at h; cases h
      · rw [hb] at h; cases h
  · intro a va vb hga ha hb
    rw [resultHandler_eq_some store aid a hga, ha, hb]
    refine ⟨_, rfl, rfl, rfl, ?_, ?_, ?_⟩
    · intro hgt
      have h1 : (if va > vb then "A" else if vb > va then "B" else "TIE") = "A" :=
        if_pos hgt
      have h2 : (if va > vb then va else if vb > va then vb else va) = va := if_pos hgt
      constructor
      · exact h1
      · show (if _ != "TIE" then some (toFixed2 _) else none) = _
        rw [h1, h2, if_pos (by decide)]
    · intro hgt
      have hn : ¬ va > vb := by exact fun hlt => absurd hgt (lt_asymm hlt)
      have h1 : (if va > vb then "A" else if vb > va then "B" else "TIE") = "B" := by
        rw [if_neg hn, if_pos hgt]
      have h2 : (if va > vb then va else if vb > va then vb else va) = vb := by
        rw [if_neg hn, if_pos hgt]
      constructor
      · exact h1
      · show (if _ != "TIE" then some (toFixed2 _) else none) = _
        rw [h1, h2, if_pos (by decide)]
    · intro heq
      subst heq
      have h1 : (if va > va then "A" else if va > va then "B" else "TIE") = "TIE" := by
        rw [if_neg (lt_irrefl va), if_neg (lt_irrefl va)]
      constructor
      · exact h1
      · show (if _ != "TIE" then some (toFixed2 _) else none) = _
        rw [h1, if_neg (by decide)]

/-- The witness row after both parties revealed (A bid 150, B bid 200). -/
def wRevealedRow : Auction :=
  { wCommitted with
    bid_a := some 150
    bid_b := some 200
    secret_a := some "peanut"
    secret_b := some "walnut" }

/-- Witness for C7: with bids 150 and 200 the result names seat B the winner
and the payment is B's bid. -/
theorem result_correct_witness :
    ∃ p, resultHandler [wRevealedRow] "aid1" = .payload p ∧
      p.winner = "B" ∧ p.paymentAmount = some (toFixed2 (200 : ℚ)) := by
  obtain ⟨p, hp, _, _, _, hB, _⟩ :=
    (result_correct [wRevealedRow] "aid1").2.2 wRevealedRow 150 200
      (by with_unfolding_all rfl) rfl rfl
  obtain ⟨hw, hpay⟩ := hB (by norm_num)
  exact ⟨p, hp, hw, hpay⟩

/-- **C8** — the status phase is derived fresh from the stored fields —
`revealed` when both bids are present, else `reveal` when both commits are
present, else `commit` — and a seat token that matches neither seat gives
the same successful response as no token at all (the seat identification
field is simply omitted), never an error. -/
theorem status_phase_and_silent_token (store : Store) (aid tok : String) (a : Auction)
    (hga : getAuctionById store aid = some a) :
    (∃ p, statusHandler store aid tok = some p ∧
      p.phase = (if a.bid_a.isSome && a.bid_b.isSome then "revealed"
        else if truthy a.commit_a && truthy a.commit_b then "reveal"
        else "commit") ∧
      p.hasCommitA = truthy a.commit_a ∧ p.hasCommitB = truthy a.commit_b ∧
      p.hasRevealA = a.bid_a.isSome ∧ p.hasRevealB = a.bid_b.isSome) ∧
    (tok ≠ a.seat_a_token → tok ≠ a.seat_b_token →
      statusHandler store aid tok = statusHandler store aid "" ∧
      ∃ p, statusHandler store aid tok = some p ∧ p.mySeat = none) := by
  unfold statusHandler
  rw [hga]
  constructor
  · exact ⟨_, rfl, rfl, rfl, rfl, rfl, rfl⟩
  · intro hna hnb
    by_cases htok : tok = ""
    · subst htok
      exact ⟨rfl, _, rfl, rfl⟩
    · have h1 : (tok != "") = true := by simp [htok]
      have h2 : (a.seat_a_token == tok) = false := by
        simp only [beq_eq_false_iff_ne, ne_eq]
        exact fun he => hna he.symm
      have h3 : (a.seat_b_token == tok) = false := by
        simp only [beq_eq_false_iff_ne, ne_eq]
        exact fun he => hnb he.symm
      constructor
      · simp only [h1, h2, h3, if_true, if_false, Bool.false_eq_true]
        rfl
      · refine ⟨_, rfl, ?_⟩
        show (if (tok != "") = true then _ else _) = _
        simp only [h1, h2, h3, if_true, if_false, Bool.false_eq_true]

/-- Witness for C8: an unmatched token yields the same status response as no
token. -/
theorem status_phase_and_silent_token_witness :
    statusHandler [wCommitted] "aid1" "badtoken" = statusHandler [wCommitted] "aid1" "" :=
  ((status_phase_and_silent_token [wCommitted] "aid1" "badtoken" wCommitted
      (by with_unfolding_all rfl)).2 (by decide) (by decide)).1

/-- **C6** (counterexample) — `validateBid` accepts the non-numeric string
`"12.3x"`: `parseFloat` reads the numeric prefix `12.3`, and the text
between the dot and the end, `"3x"`, has length 2, so the validator returns
`true` although the input does not denote a numeric value (the spec-side
`isNumericText` rejects it) — refuting "non-numeric input is rejected". -/
theorem validateBid_accepts_nonnumeric :
    validateBid "12.3x" = true ∧ isNumericText "12.3x" = false := by
  constructor <;> with_unfolding_all decide

/-- **C6** (amended) — `validateBid(b)` returns true iff `parseFloat(b)`
yields a finite value `v` with `0 < v ≤ 100000` and, when the literal text
contains a dot, the segment between the first dot and the following dot (or
the end of the text) has at most two characters.  The segment-length check
counts every character, digit or not: a string with a third decimal digit is
still rejected, but a non-numeric string whose numeric prefix is valid and
whose post-dot segment is short (such as `"12.3x"`) is accepted, and a
numeral with a short fraction but a long post-dot segment (such as
`"1.5e1"`) is rejected. -/
theorem validateBid_characterization (b : String) :
    validateBid b = true ↔
      (∃ q : ℚ, jsParseFloat b = .val q ∧ 0 < q ∧ q ≤ 100000) ∧
        fracSegLe2 b = true := by
  unfold validateBid
  cases h : jsParseFloat b with
  | nan => simp
  | posInf => simp
  | negInf => simp
  | val q =>
      show (if q ≤ 0 then false
        else if 100000 < q then false
        else match splitDotChars b.data with
          | _ :: p1 :: _ => decide (p1.length ≤ 2)
          | _ => true) = true ↔ _
      constructor
      · intro ht
        by_cases h1 : q ≤ 0
        · rw [if_pos h1] at ht; cases ht
        · rw [if_neg h1] at ht
          by_cases h2 : 100000 < q
          · rw [if_pos h2] at ht; cases ht
          · rw [if_neg h2] at ht
            exact ⟨⟨q, rfl, lt_of_not_le h1, le_of_not_lt h2⟩, ht⟩
      · rintro ⟨⟨q2, hq2, h0, hle⟩, hfr⟩
        have hq : q2 = q := by
          injection hq2 with hv
          exact hv.symm
        subst hq
        rw [if_neg (not_le.mpr h0), if_neg (not_lt.mpr hle)]
        exact hfr

/-- Witness for the amended C6: the clean numeral 150.00 is accepted. -/
theorem validateBid_characterization_witness :
    validateBid "150.00" = true :=
  (validateBid_characterization "150.00").mpr
    ⟨⟨150, by with_unfolding_all decide, by norm_num, by norm_num⟩,
      by with_unfolding_all decide⟩

/-- One successful protocol step preserves store well-formedness and never
changes the commit or the bid of a seat whose bid is already set. -/
theorem protoStep_preserves {s s2 : Store} (hwf : WfStore s) (hstep : ProtoStep s s2) :
    WfStore s2 ∧
    ∀ aid a seat, getAuctionById s aid = some a → (seatBid a seat).isSome = true →
      ∃ a2, getAuctionById s2 aid = some a2 ∧
        seatCommit a2 seat = seatCommit a seat ∧ seatBid a2 seat = seatBid a seat := by
  obtain ⟨hnd, hinv⟩ := hwf
  cases hstep with
  | commit aid0 tok c h =>
      obtain ⟨hhex, a0, seat0, hres, hcom, hs2⟩ := commitHandler_ok_inv h
      subst hs2
      obtain ⟨hmem0, hid0, -, -⟩ := getBySeat_inv hres
      have hctru : truthy (some c) = true := truthy_some_of_ne (isHex64_ne_empty hhex)
      constructor
      · refine ⟨nodupIds_map_update s aid0 _ (fun x => by simp) hnd, ?_⟩
        intro y hy hbidy
        rcases List.mem_map.mp hy with ⟨x, hxmem, hxy⟩
        by_cases hx : (x.id == aid0) = true
        · rw [if_pos hx] at hxy
          subst hxy
          have hbx : x.bid_a.isSome = true ∨ x.bid_b.isSome = true := by
            rcases hbidy with hb | hb
            · exact Or.inl (by simpa using hb)
            · exact Or.inr (by simpa using hb)
          obtain ⟨hca, hcb⟩ := hinv x hxmem hbx
          cases seat0
          · exact ⟨by simpa [setCommitRow] using hctru, by simpa [setCommitRow] using hcb⟩
          · exact ⟨by simpa [setCommitRow] using hca, by simpa [setCommitRow] using hctru⟩
        · rw [if_neg hx] at hxy
          subst hxy
          exact hinv x hxmem hbidy
      · intro aid a seat ha hbseat
        have hupd := getById_map_update s (fun x => setCommitRow x seat0 c)
          (fun x => by simp) aid0 aid a ha
        by_cases hx : (a.id == aid0) = true
        · exfalso
          have ha0 : a = a0 := nodup_id_unique hnd (getById_mem ha).1 hmem0
            (by rw [beq_iff_eq.mp hx, hid0])
          have hbx : a.bid_a.isSome = true ∨ a.bid_b.isSome = true := by
            cases seat
            · exact Or.inl (by simpa [seatBid] using hbseat)
            · exact Or.inr (by simpa [seatBid] using hbseat)
          obtain ⟨hca, hcb⟩ := hinv a (getById_mem ha).1 hbx
          subst ha0
          cases seat0 <;> simp only [seatCommit] at hcom
          · rw [hca] at hcom; cases hcom
          · rw [hcb] at hcom; cases hcom
        · rw [if_neg hx] at hupd
          exact ⟨a, hupd, rfl, rfl⟩
  | reset aid0 tok h =>
      obtain ⟨a0, seat0, hres, hcom, hs2⟩ := resetCommitHandler_ok_inv h
      subst hs2
      obtain ⟨hmem0, hid0, -, -⟩ := getBySeat_inv hres
      constructor
      · refine ⟨nodupIds_map_update s aid0 _ (fun x => by simp) hnd, ?_⟩
        intro y hy hbidy
        rcases List.mem_map.mp hy with ⟨x, hxmem, hxy⟩
        by_cases hx : (x.id == aid0) = true
        · rw [if_pos hx] at hxy
          subst hxy
          exfalso
          have hx0 : x = a0 := nodup_id_unique hnd hxmem hmem0
            (by rw [beq_iff_eq.mp hx, hid0])
          have hbx : x.bid_a.isSome = true ∨ x.bid_b.isSome = true := by
            rcases hbidy with hb | hb
            · exact Or.inl (by simpa using hb)
            · exact Or.inr (by simpa using hb)
          obtain ⟨hca, hcb⟩ := hinv x hxmem hbx
          subst hx0
          cases seat0 <;> simp only [otherSeat, seatCommit] at hcom
          · rw [hcb] at hcom; cases hcom
          · rw [hca] at hcom; cases hcom
        · rw [if_neg hx] at hxy
          subst hxy
          exact hinv x hxmem hbidy
      · intro aid a seat ha hbseat
        have hupd := getById_map_update s (fun x => resetCommitRow x seat0)
          (fun x => by simp) aid0 aid a ha
        by_cases hx : (a.id == aid0) = true
        · exfalso
          have ha0 : a = a0 := nodup_id_unique hnd (getById_mem ha).1 hmem0
            (by rw [beq_iff_eq.mp hx, hid0])
          have hbx : a.bid_a.isSome = true ∨ a.bid_b.isSome = true := by
            cases seat
            · exact Or.inl (by simpa [seatBid] using hbseat)
            · exact Or.inr (by simpa [seatBid] using hbseat)
          obtain ⟨hca, hcb⟩ := hinv a (getById_mem ha).1 hbx
          subst ha0
          cases seat0 <;> simp only [otherSeat, seatCommit] at hcom
          · rw [hcb] at hcom; cases hcom
          · rw [hca] at hcom; cases hcom
        · rw [if_neg hx] at hupd
          exact ⟨a, hupd, rfl, rfl⟩
  | reveal aid0 tok bid sec h =>
      obtain ⟨raw, a0, seat0, hbid0, hres, hca0, hcb0, hnb0, hs2⟩ := revealHandler_ok_inv h
      subst hs2
      obtain ⟨hmem0, hid0, -, -⟩ := getBySeat_inv hres
      constructor
      · refine ⟨nodupIds_map_update s aid0 _ (fun x => by simp) hnd, ?_⟩
        intro y hy hbidy
        rcases List.mem_map.mp hy with ⟨x, hxmem, hxy⟩
        by_cases hx : (x.id == aid0) = true
        · rw [if_pos hx] at hxy
          subst hxy
          have hx0 : x = a0 := nodup_id_unique hnd hxmem hmem0
            (by rw [beq_iff_eq.mp hx, hid0])
          subst hx0
          exact ⟨by simpa using hca0, by simpa using hcb0⟩
        · rw [if_neg hx] at hxy
          subst hxy
          exact hinv x hxmem hbidy
      · intro aid a seat ha hbseat
        have hupd := getById_map_update s
          (fun x => setRevealRow x seat0 (jsParseFloat (canonicalBidStr raw)).finVal sec)
          (fun x => by simp) aid0 aid a ha
        by_cases hx : (a.id == aid0) = true
        · have ha0 : a = a0 := nodup_id_unique hnd (getById_mem ha).1 hmem0
            (by rw [beq_iff_eq.mp hx, hid0])
          rw [if_pos hx] at hupd
          rcases seat_cases seat0 seat with hse | hse
          · exfalso
            subst hse
            rw [ha0, hnb0] at hbseat
            simp at hbseat
          · subst hse
            exact ⟨_, hupd, by simp, by simp⟩
        · rw [if_neg hx] at hupd
          exact ⟨a, hupd, rfl, rfl⟩

/-- **C4** — once a seat's bid has been revealed, that seat's commit never
changes again: starting from any well-formed store, no finite sequence of
successful Commit, ResetCommit or Reveal calls changes the commit (or the
bid) of a seat whose bid is set, and well-formedness is preserved along the
way — Commit on such a seat fails `AlreadyCommitted`, ResetCommit fails
`Conflict` because the counterpart commit exists, and Reveal fails
`AlreadyRevealed`. -/
theorem revealed_commit_immutable (s s2 : Store) (hwf : WfStore s)
    (hsteps : ProtoReaches s s2) :
    WfStore s2 ∧
    ∀ aid a seat, getAuctionById s aid = some a → (seatBid a seat).isSome = true →
      ∃ a2, getAuctionById s2 aid = some a2 ∧
        seatCommit a2 seat = seatCommit a seat ∧ seatBid a2 seat = seatBid a seat := by
  induction hsteps with
  | refl => exact ⟨hwf, fun aid a seat ha _ => ⟨a, ha, rfl, rfl⟩⟩
  | tail hab hbc ih =>
      obtain ⟨hwfb, htrack⟩ := ih
      obtain ⟨hwfc, hstep⟩ := protoStep_preserves hwfb hbc
      refine ⟨hwfc, fun aid a seat ha hb => ?_⟩
      obtain ⟨a1, ha1, hc1, hb1⟩ := htrack aid a seat ha hb
      obtain ⟨a2, ha2, hc2, hb2⟩ := hstep aid a1 seat ha1 (by rw [hb1]; exact hb)
      exact ⟨a2, ha2, hc2.trans hc1, hb2.trans hb1⟩

/-- The half-revealed witness row: seat A revealed, seat B not yet. -/
def wHalfRevealed : Auction :=
  { wCommitted with
    bid_a := some 150
    secret_a := some "peanut" }

/-- A second, open auction in the witness store. -/
def wOpen : Auction :=
  { id := "aid2", title := "Desk", description := none, item_url := none,
    seat_a_token := "tokA2", seat_b_token := "tokB2" }

/-- Witness for C4: a commit to a second auction leaves the revealed seat A
of the first auction — commit and bid — untouched. -/
theorem revealed_commit_immutable_witness :
    ∃ a2, getAuctionById (setCommit [wHalfRevealed, wOpen] "aid2" Seat.A wHexA) "aid1"
        = some a2 ∧
      seatCommit a2 Seat.A = seatCommit wHalfRevealed Seat.A ∧
      seatBid a2 Seat.A = seatBid wHalfRevealed Seat.A :=
  (revealed_commit_immutable [wHalfRevealed, wOpen] _
      (by with_unfolding_all decide)
      (Relation.ReflTransGen.single
        (ProtoStep.commit "aid2" "tokA2" wHexA (by with_unfolding_all rfl)))).2
    "aid1" wHalfRevealed Seat.A (by with_unfolding_all rfl) (by with_unfolding_all decide)

/-- **C10** — a successful Reveal stores the canonicalized bid, not the raw
submitted value: the numeric value written for the seat is `parseFloat` of
the two-decimal canonical string that was hashed; that stored value formats
back to exactly that canonical string; and GetResult renders each stored bid
with the same two-decimal formatting — so the bid strings it later returns
are exactly the canonical strings bound in the commitment hashes. -/
theorem reveal_stores_canonical_bid (store : Store) (aid tok raw secret : String)
    (a : Auction) (seat : Seat)
    (htok : tok ≠ "") (hsec : secret ≠ "") (hb : validateBid raw = true)
    (hres : getAuctionBySeatToken store aid tok = some (a, seat))
    (hca : truthy a.commit_a = true) (hcb : truthy a.commit_b = true)
    (hnb : seatBid a seat = none)
    (hmatch : seatCommit a seat =
      some (computeHash (revealPayload (canonicalBidStr raw) secret aid seat))) :
    revealHandler store aid tok (some raw) secret
      = .ok (setReveal store aid seat ((jsParseFloat (canonicalBidStr raw)).finVal) secret) ∧
    toFixed2 ((jsParseFloat (canonicalBidStr raw)).finVal) = canonicalBidStr raw ∧
    (∀ s2 r va vb, getAuctionById s2 aid = some r →
      r.bid_a = some va → r.bid_b = some vb →
      ∃ p, resultHandler s2 aid = .payload p ∧
        p.bidA = toFixed2 va ∧ p.bidB = toFixed2 vb) := by
  have heq := revealHandler_eq store aid tok raw secret a seat htok hsec hb hres hca hcb hnb
  refine ⟨?_, (canonicalBidStr_roundtrip hb).2, ?_⟩
  · rw [heq, if_neg (by simp [hmatch])]
  · intro s2 r va vb hr hva hvb
    rw [resultHandler_eq_some s2 aid r hr, hva, hvb]
    exact ⟨_, rfl, rfl, rfl⟩

/-- Witness for C10: the accepted reveal of `150.00` stores
`parseFloat("150.00")` for seat A. -/
theorem reveal_stores_canonical_bid_witness :
    revealHandler [wRevealReady] "aid1" "tokA1" (some "150.00") "peanut"
      = .ok (setReveal [wRevealReady] "aid1" Seat.A
          ((jsParseFloat (canonicalBidStr "150.00")).finVal) "peanut") := by
  have hc : canonicalBidStr "150.00" = "150.00" := by with_unfolding_all decide
  exact (reveal_stores_canonical_bid [wRevealReady] "aid1" "tokA1" "150.00" "peanut"
      wRevealReady Seat.A
      (by decide) (by decide) (by with_unfolding_all decide)
      (by with_unfolding_all rfl)
      (truthy_some_of_ne (computeHash_ne_empty wPayloadA))
      (by with_unfolding_all decide)
      rfl
      (by show some (computeHash wPayloadA) = _
          rw [hc]
          rfl)).1

/-- The SHA-256 implementation agrees with the FIPS 180-2 test vector for
the empty message. -/
theorem sha256_test_vector_empty :
    computeHash ""
      = "e3b0c44298fc1c149afbf4c8996fb92427ae41e4649b934ca495991b7852b855" := by
  set_option maxRecDepth 100000 in with_unfolding_all decide

/-- The SHA-256 implementation agrees with the FIPS 180-2 test vector for
the message `abc`. -/
theorem sha256_test_vector_abc :
    computeHash "abc"
      = "ba7816bf8f01cfea414140de5dae2223b00361a396177a9cb410ff61f20015ad" := by
  set_option maxRecDepth 100000 in with_unfolding_all decide

end CozyBid
